import Mathlib

/-!
Verification of the gravity reconciliation engine and process-manager routing
layer against its specification.  The Python source under `gravity/` is
shallowly embedded: dictionaries become association lists, sets become lists
with membership-based deduplication, raised exceptions become `Except`
errors, and the side effect of emitting a warning becomes an explicit list of
warning strings in the result.
-/

namespace Gravity

/-- A service specification, one per managed process within a config.

Modelled from the spec: the service classes (`gravity/state.py`) are not part
of the sources provided, only their callers are.  Per the spec, a service
spec carries a service type, a service name, a config type, and optional
runtime parameters, and "Equality/'full match' is structural: two specs match
iff all fields that affect runtime behavior are equal". -/
structure ServiceSpec where
  config_type : String
  service_type : String
  service_name : String
  server_pools : List String := []
  environment_from : Option String := none
  umask : Option String := none
deriving DecidableEq, Repr

/-- Modelled from the spec: `Service.full_match` (in the absent
`gravity/state.py`) is structural equality over all behavior-affecting
fields, which here is all fields of `ServiceSpec`. -/
def ServiceSpec.full_match (a b : ServiceSpec) : Bool :=
  decide (a = b)

/-- A persisted `RegisteredConfig` record, one per registered config file.
The `config_file` path itself is the key of the association list holding
these records.  `attribs` is a string mapping, embedded as an association
list compared structurally. -/
structure StoredConfig where
  config_type : String
  instance_name : String
  attribs : List (String × String)
  services : List ServiceSpec
  process_manager : String
deriving DecidableEq, Repr

/-- The result of a fresh parse (`ConfigManager.get_config`) as consumed by
`determine_config_changes`: a nullable explicit instance name, the attribute
mapping, and the fresh service list. -/
structure ParsedConfig where
  instance_name : Option String
  config_type : String
  attribs : List (String × String)
  services : List ServiceSpec
deriving DecidableEq, Repr

/-- Outcome of re-parsing one registered config file.
`osError` models an `OSError` raised by `open()` (file missing or
unreadable), which `determine_config_changes` catches.  `invalid` models
every other failure of `get_config`: a structurally invalid file makes
`get_config` return `None` (the subsequent `ini_config["instance_name"]`
subscript then raises an uncaught `TypeError`), and YAML errors or the
missing-galaxy-root `Exception` propagate uncaught as well. -/
inductive ParseResult where
  | ok (p : ParsedConfig)
  | osError
  | invalid
deriving DecidableEq, Repr

/-- The staged per-config changeset built by `determine_config_changes`.
In the Python code this is the stored dict itself with optional extra keys
`update_attribs`, `update_instance_name`, `update_services` and
`remove_services`; a list-valued key is present iff at least one element was
appended, so the empty list here models the absent key. -/
structure ConfigChanges where
  base : StoredConfig
  update_attribs : Option (List (String × String)) := none
  update_instance_name : Option String := none
  update_services : List ServiceSpec := []
  remove_services : List ServiceSpec := []
deriving DecidableEq, Repr

/-- The fresh services staged as `update_services`
(config_manager.py lines 212-225): each fresh service with no `full_match`
among the stored services, in fresh order (the `for`/`else` loop). -/
def update_services_of (fresh stored : List ServiceSpec) : List ServiceSpec :=
  fresh.filter fun s => !(stored.any fun t => s.full_match t)

/-- The stored services staged as `remove_services`
(config_manager.py lines 226-231): the `services` list accumulated by the
first loop contains every fresh service, so `service not in services` means
the stored service equals no fresh service. -/
def remove_services_of (fresh stored : List ServiceSpec) : List ServiceSpec :=
  stored.filter fun s => decide (s ∉ fresh)

/-- The per-config part of one iteration of the main loop of
`determine_config_changes`: the staged `ConfigChanges`, the names added to
`meta_changes["changed_instances"]` (a Python set; this list may repeat
names, membership is what matters), and the resolved instance name added to
`instances`. -/
structure ConfigDiff where
  changes : ConfigChanges
  changed : List String
  inst : String
deriving DecidableEq, Repr

/-- One iteration of the diff loop of `determine_config_changes`
(config_manager.py lines 196-231) for a config whose re-parse succeeded.
Note that when the fresh parse sets an explicit instance name the name is
added to `changed_instances` unconditionally: the `add` call sits outside
the inequality test. -/
def diffConfig (p : ParsedConfig) (stored : StoredConfig) : ConfigDiff :=
  let nameStep : String × Option String × List String :=
    match p.instance_name with
    | some n => (n, if n ≠ stored.instance_name then some n else none, [n])
    | none => (stored.instance_name, none, [])
  let instName := nameStep.1
  let updName := nameStep.2.1
  let changed0 := nameStep.2.2
  let updAttribs : Option (List (String × String)) :=
    if p.attribs ≠ stored.attribs then some p.attribs else none
  let changed1 := if p.attribs ≠ stored.attribs then changed0 ++ [instName] else changed0
  let upd := update_services_of p.services stored.services
  let changed2 := if upd ≠ [] then changed1 ++ [instName] else changed1
  let rem := remove_services_of p.services stored.services
  let changed3 := if rem ≠ [] then changed2 ++ [instName] else changed2
  { changes := { base := stored, update_attribs := updAttribs, update_instance_name := updName,
                 update_services := upd, remove_services := rem },
    changed := changed3, inst := instName }

/-- The service-list merge of `register_config_changes`
(config_manager.py lines 251-257): start from `update_services`, then append
each stored service that is neither in `remove` nor already in the growing
`services` list. -/
def commitServices (upd rem stored : List ServiceSpec) : List ServiceSpec :=
  stored.foldl (fun acc s => if s ∉ rem ∧ s ∉ acc then acc ++ [s] else acc) upd

/-- Applying one staged `ConfigChanges` to produce the newly persisted
record (`register_config_changes`, config_manager.py lines 246-258).  The
service merge runs only when an `update_services` or `remove_services` key
is present (a nonempty staged list). -/
def applyChanges (c : ConfigChanges) : StoredConfig :=
  let attribs := match c.update_attribs with
    | some v => v
    | none => c.base.attribs
  let name := match c.update_instance_name with
    | some v => v
    | none => c.base.instance_name
  let services :=
    if c.update_services ≠ [] ∨ c.remove_services ≠ [] then
      commitServices c.update_services c.remove_services c.base.services
    else c.base.services
  { c.base with attribs := attribs, instance_name := name, services := services }

/- ### The persisted state and the full reconcile cycle -/

/-- The persisted gravity state (`configstate.yaml`): the registered config
files and the side table of configs pending removal, both keyed by config
file path (Python dicts, embedded as association lists in insertion
order). -/
structure GravityState where
  config_files : List (String × StoredConfig)
  remove_configs : List (String × StoredConfig)
deriving DecidableEq, Repr

/-- Accumulator of the main loop of `determine_config_changes`:
`new_configs`, the `changed_instances` set (as a list, membership is what
matters), the `instances` set of resolved names, and the warnings emitted by
`warn` (the io module is external; warnings are collected in the result). -/
structure ScanAcc where
  new_configs : List (String × ConfigChanges)
  changed : List String
  insts : List String
  warns : List String
deriving DecidableEq, Repr

/-- The main loop of `determine_config_changes` (config_manager.py lines
184-232) over the registered configs.  An `OSError` from `get_config` is
caught: the stored record is kept unchanged, its stored instance name is
counted as present and a warning is recorded.  Any other parse failure
(`get_config` returning `None` for a structurally invalid file, a YAML
error, or the galaxy-root exception) escapes the `except OSError` clause
and aborts the whole call, modelled as `Except.error`. -/
def processConfigs (parse : String → ParseResult) :
    List (String × StoredConfig) → Except Unit ScanAcc
  | [] => Except.ok ⟨[], [], [], []⟩
  | (f, stored) :: rest =>
    match parse f with
    | ParseResult.invalid => Except.error ()
    | ParseResult.osError =>
      (processConfigs parse rest).map fun a =>
        ⟨(f, { base := stored }) :: a.new_configs, a.changed,
          stored.instance_name :: a.insts, ("Unable to read " ++ f) :: a.warns⟩
    | ParseResult.ok p =>
      let d := diffConfig p stored
      (processConfigs parse rest).map fun a =>
        ⟨(f, d.changes) :: a.new_configs, d.changed ++ a.changed, d.inst :: a.insts, a.warns⟩

/-- `ConfigManager.get_registered_instances` (config_manager.py lines
288-297): the deduplicated instance names of all registered configs, with
the pending-removal configs included when `include_removed` is set. -/
def registeredInstanceNames (st : GravityState) (include_removed : Bool) : List String :=
  let configs := st.config_files.map Prod.snd ++
    (if include_removed then st.remove_configs.map Prod.snd else [])
  configs.foldl (fun acc c => if c.instance_name ∈ acc then acc else acc ++ [c.instance_name]) []

/-- The complete changeset returned by `determine_config_changes`:
`new_configs` plus the `meta_changes` dict, with warnings carried
alongside. -/
structure DetermineResult where
  new_configs : List (String × ConfigChanges)
  changed_instances : List String
  remove_instances : List String
  remove_configs : List (String × StoredConfig)
  warnings : List String
deriving DecidableEq, Repr

/-- `ConfigManager.determine_config_changes` (config_manager.py lines
178-237): run the diff loop over every registered config, then add to
`remove_instances` every previously known instance name (pending-removal
configs included) that no processed config still references.
`meta_changes["remove_configs"]` is `get_remove_configs()`, the
pending-removal table itself. -/
def determine_config_changes (parse : String → ParseResult) (st : GravityState) :
    Except Unit DetermineResult :=
  (processConfigs parse st.config_files).map fun a =>
    { new_configs := a.new_configs,
      changed_instances := a.changed,
      remove_instances :=
        (registeredInstanceNames st true).filter (fun n => decide (n ∉ a.insts)),
      remove_configs := st.remove_configs,
      warnings := a.warns }

/-- Assignment `d[k] = v` on a Python dict embedded as an association list:
overwrite in place when the key is present, append otherwise. -/
def setKey (l : List (String × StoredConfig)) (k : String) (v : StoredConfig) :
    List (String × StoredConfig) :=
  if l.any fun e => e.1 = k then
    l.map fun e => if e.1 = k then (k, v) else e
  else l ++ [(k, v)]

/-- Deletion `del d[k]` on an embedded dict.  (`_purge_config_file` would
raise `KeyError` on a missing key; in the reconcile flow the purged keys
always come from the table itself, so the missing-key case is never
reached.) -/
def delKey (l : List (String × StoredConfig)) (k : String) : List (String × StoredConfig) :=
  l.filter fun e => decide (e.1 ≠ k)

/-- `ConfigManager.register_config_changes` (config_manager.py lines
239-259): purge every config in `meta_changes["remove_configs"]` from the
pending-removal table, then apply each staged changeset and persist the
result under its config file key. -/
def register_config_changes (st : GravityState) (r : DetermineResult) : GravityState :=
  let st1 : GravityState :=
    { st with remove_configs :=
        (r.remove_configs.foldl (fun acc fc => delKey acc fc.1) st.remove_configs) }
  r.new_configs.foldl
    (fun acc fc => { acc with config_files := setKey acc.config_files fc.1 (applyChanges fc.2) })
    st1

/-- The staged changeset `determine_config_changes` records for one config
file, as a function of its parse outcome: the full diff on a successful
parse, the unchanged stored record (nothing staged) otherwise. -/
def stepChanges (parse : String → ParseResult) (f : String) (stored : StoredConfig) :
    ConfigChanges :=
  match parse f with
  | ParseResult.ok p => (diffConfig p stored).changes
  | _ => { base := stored }

/-- The instance name `determine_config_changes` counts as present for one
registered config: the explicit fresh name if the re-parse supplies one, the
stored name otherwise — in particular a config that failed to re-parse
still counts as referencing its stored name. -/
def resolvedName (parse : String → ParseResult) (f : String) (stored : StoredConfig) : String :=
  match parse f with
  | ParseResult.ok p => p.instance_name.getD stored.instance_name
  | _ => stored.instance_name


/- ### Process manager routing (gravity/process_manager/init) -/

/-- The per-instance data the router reads from the config manager: the
instance name and its assigned backend (`process_manager` field). -/
structure InstEntry where
  instance_name : String
  process_manager : String
deriving DecidableEq, Repr

/-- `ConfigManager.get_instance_config` (config_manager.py lines 299-303):
the first registered config whose instance name matches. -/
def get_instance_config (entries : List InstEntry) (n : String) : Option InstEntry :=
  entries.find? fun e => e.instance_name = n

/-- Modelled from the spec: `get_registered_instance_names`, called by
`get_instance_names`, is not under src (only its caller is); per the spec it
returns the registered-instance set, like `get_registered_instances`
(config_manager.py lines 288-297): the deduplicated instance names of the
registered configs. -/
def registeredNamesOf (entries : List InstEntry) : List String :=
  entries.foldl
    (fun acc e => if e.instance_name ∈ acc then acc else acc ++ [e.instance_name]) []

/-- `BaseProcessManager.get_instance_names` (process_manager/__init__.py
lines 163-178): split the requested names into registered and unknown ones;
with no names given fall back to all registered instances, and fail
(`exception`) when nothing is registered at all.  `none` and `some []` both
model a falsy `instance_names`. -/
def get_instance_names (registered : List String) (names : Option (List String)) :
    Except Unit (List String × List String × List String) :=
  let given := names.getD []
  if given ≠ [] then
    Except.ok (given.filter (fun n => decide (n ∈ registered)),
      given.filter (fun n => decide (n ∉ registered)), registered)
  else if registered ≠ [] then
    Except.ok (registered, [], registered)
  else Except.error ()

/-- Appending a name to its process manager's group,
`instance_names_by_pm[pm].append(n)` with the `KeyError` fallback creating
the group (a Python dict in insertion order). -/
def groupAppend (acc : List (String × List String)) (pm : String) (n : String) :
    List (String × List String) :=
  if acc.any fun g => g.1 = pm then
    acc.map fun g => if g.1 = pm then (g.1, g.2 ++ [n]) else g
  else acc ++ [(pm, [n])]

/-- The grouping loop of `__group_instance_names_by_pm`: for each resolved
name look up its config and append the name to its backend's group.  A
resolved name with no config would make `config.process_manager` raise on
`None`, modelled as an error. -/
def group_names (entries : List InstEntry) :
    List (String × List String) → List String → Except Unit (List (String × List String))
  | acc, [] => Except.ok acc
  | acc, n :: rest =>
    match get_instance_config entries n with
    | none => Except.error ()
    | some e => group_names entries (groupAppend acc e.process_manager n) rest

/-- `ProcessManagerRouter.__group_instance_names_by_pm` (lines 197-206):
resolve the requested names (keeping only index `[0]`, the resolved ones —
the unknown names are dropped here), then group the resolved names by the
owning config's `process_manager`. -/
def group_instance_names_by_pm (entries : List InstEntry) (names : Option (List String)) :
    Except Unit (List (String × List String)) :=
  match get_instance_names (registeredNamesOf entries) names with
  | Except.error e => Except.error e
  | Except.ok t => group_names entries [] t.1

/-- The observable outcome of `__route_method`: the backend calls made
(backend name, method, group of instance names) and what was reported to the
caller about unknown names (nothing — the unknown list returned by
`get_instance_names` is discarded). -/
structure RouteResult where
  calls : List (String × String × List String)
  reported : List String
deriving DecidableEq, Repr

/-- The dispatch loop of `__route_method`: call the method on each group's
backend.  `self.process_managers[pm_name]` raises `KeyError` for an unloaded
backend, modelled as an error. -/
def call_backends (pms : List String) (method : String) :
    List (String × String × List String) → List (String × List String) →
    Except Unit (List (String × String × List String))
  | acc, [] => Except.ok acc
  | acc, g :: rest =>
    if g.1 ∈ pms then call_backends pms method (acc ++ [(g.1, method, g.2)]) rest
    else Except.error ()

/-- `ProcessManagerRouter.__route_method` (lines 208-218): group, then call
the same-named method on each group's backend with that group's names.
Nothing about the unknown names reaches the result: `reported` is always
empty. -/
def route_method (pms : List String) (entries : List InstEntry) (method : String)
    (names : Option (List String)) : Except Unit RouteResult :=
  match group_instance_names_by_pm entries names with
  | Except.error e => Except.error e
  | Except.ok groups =>
    (call_backends pms method [] groups).map fun calls =>
      { calls := calls, reported := [] }

/-- `ProcessManagerRouter.update` (process_manager/__init__.py lines
252-263): update is invoked on every loaded process manager with the
caller's instance names and force flag, bypassing `__route_method`; the
registered-config data (`entries`) is read only for a debug line and does
not influence the dispatch. -/
def router_update (pms : List String) (_entries : List InstEntry)
    (names : Option (List String)) (force : Bool) :
    List (String × Option (List String) × Bool) :=
  pms.map fun pm => (pm, names, force)

/- ### The on-disk unit files (gravity/process_manager base and systemd) -/

/-- A directory of text files as (name, contents) pairs; file names are
unique in a real directory. -/
abbrev FS := List (String × String)

/-- Reading a file if it exists (`os.path.exists` + `open().read()`). -/
def lookupFS (fs : FS) (path : String) : Option String :=
  (fs.find? fun e => e.1 = path).map Prod.snd

/-- Writing a file (`open(path, "w").write(contents)`): overwrite in place
or create. -/
def setFS (fs : FS) (path contents : String) : FS :=
  if fs.any fun e => e.1 = path then
    fs.map fun e => if e.1 = path then (path, contents) else e
  else fs ++ [(path, contents)]

/-- `BaseProcessManager._file_needs_update` (process_manager/__init__.py
lines 75-83): update iff the file is absent or its contents differ. -/
def file_needs_update (fs : FS) (path contents : String) : Bool :=
  match lookupFS fs path with
  | some existing => decide (existing ≠ contents)
  | none => true

/-- `BaseProcessManager._update_file` (lines 85-93): write only when the
file is absent or needs an update; the returned flag records whether a write
happened. -/
def update_file (fs : FS) (path contents : String) : FS × Bool :=
  let ex := (lookupFS fs path).isSome
  if (ex && file_needs_update fs path contents) || !ex then
    (setFS fs path contents, true)
  else (fs, false)

/- ### The systemd backend (gravity/process_manager/systemd.py) -/

/-- The service fields the systemd backend's unit naming depends on. -/
structure SysService where
  config_type : String
  service_type : String
  service_name : String
deriving DecidableEq, Repr

/-- A registered config as the systemd backend consumes it. -/
structure SysConfig where
  instance_name : String
  process_manager : String
  services : List SysService
deriving DecidableEq, Repr

/-- `SystemdProcessManager.__use_instance` (systemd.py lines 60-63) is
hard-coded to `False`. -/
def use_instance : Bool := false

/-- `SystemdProcessManager.__unit_name` (systemd.py lines 75-80). -/
def unit_name (instance_name : String) (s : SysService) : String :=
  s.config_type ++ "-" ++ (if use_instance then instance_name ++ "-" else "") ++
    s.service_name ++ ".service"

/-- `os.path.splitext(file)[0]` on a unit file name: the part before the
last dot (the whole name if it has none). -/
def unit_root (s : String) : String :=
  match s.revPosOf '.' with
  | some p => s.extract ⟨0⟩ p
  | none => s

/-- An observable systemd action: `systemctl stop`, `os.unlink`, or
`systemctl daemon-reload`. -/
inductive SysEvent where
  | stopped (unit : String)
  | removed (file : String)
  | reloaded
deriving DecidableEq, Repr

/-- The write loop of `_process_config` (systemd.py lines 162-163): write
one unit file per service via `__update_service` (which renders the template
and calls `_update_file`), accumulating the intended unit paths.  Rendering
is taken as a parameter — the claims here are about the file set, not the
template text. -/
def write_units (render : String → SysConfig → SysService → String)
    (config_file : String) (c : SysConfig) :
    FS × List String → List SysService → FS × List String
  | acc, [] => acc
  | acc, s :: rest =>
    write_units render config_file c
      ((update_file acc.1 (unit_name c.instance_name s) (render config_file c s)).1,
        acc.2 ++ [unit_name c.instance_name s]) rest

/-- The orphan-removal loop of `_process_config` (systemd.py lines 169-174):
unlink each orphaned unit file. -/
def remove_units : FS → List String → FS
  | fs, [] => fs
  | fs, f :: rest => remove_units (fs.filter fun e => decide (e.1 ≠ f)) rest

/-- `f.startswith("galaxy-")` (systemd.py line 166), embedded on the
character list so that it evaluates (Lean's own `String.startsWith` is
compiled code that the kernel cannot reduce). -/
def starts_with_galaxy (f : String) : Bool :=
  match f.data with
  | 'g' :: 'a' :: 'l' :: 'a' :: 'x' :: 'y' :: '-' :: _ => true
  | _ => false

/-- `SystemdProcessManager._process_config` (systemd.py lines 148-174) for
one config: write one unit file per service, then stop and unlink every
`galaxy-`-prefixed file present in the unit directory that is not among the
freshly intended set. -/
def process_config (render : String → SysConfig → SysService → String) (fs : FS)
    (config_file : String) (c : SysConfig) : FS × List SysEvent :=
  let written := write_units render config_file c (fs, []) c.services
  let present := (written.1.map Prod.fst).filter fun f => starts_with_galaxy f
  let orphans := present.filter fun f => decide (f ∉ written.2)
  (remove_units written.1 orphans,
    orphans.flatMap fun f => [SysEvent.stopped (unit_root f), SysEvent.removed f])

/-- The config loop of `SystemdProcessManager.update` (systemd.py lines
206-221): process each config owned by this backend, skip the others. -/
def update_configs (render : String → SysConfig → SysService → String)
    (self_name : String) : FS × List SysEvent → List (String × SysConfig) →
    FS × List SysEvent
  | acc, [] => acc
  | acc, fc :: rest =>
    if fc.2.process_manager = self_name then
      update_configs render self_name
        ((process_config render acc.1 fc.1 fc.2).1,
          acc.2 ++ (process_config render acc.1 fc.1 fc.2).2) rest
    else update_configs render self_name acc rest

/-- `SystemdProcessManager.update` (systemd.py lines 204-222): for every
registered config (filtered to the requested instances as
`get_registered_configs(instances=...)` does), process it when this backend
owns it, then issue one `daemon-reload` for the batch. -/
def systemd_update (render : String → SysConfig → SysService → String)
    (self_name : String) (fs : FS) (configs : List (String × SysConfig))
    (names : Option (List String)) : FS × List SysEvent :=
  let selected := match names with
    | none => configs
    | some l => configs.filter fun fc => fc.2.instance_name ∈ l
  let folded := update_configs render self_name (fs, []) selected
  (folded.1, folded.2 ++ [SysEvent.reloaded])

/-- The unit files one config intends (analysis helper): one per service. -/
def intended_units (c : SysConfig) : List String :=
  c.services.map (unit_name c.instance_name)

/-- The configs `systemd_update` actually processes (analysis helper): the
instance-filtered configs owned by this backend, in order. -/
def owned_selected (self_name : String) (configs : List (String × SysConfig))
    (names : Option (List String)) : List (String × SysConfig) :=
  (match names with
    | none => configs
    | some l => configs.filter fun fc => fc.2.instance_name ∈ l).filter
    fun fc => decide (fc.2.process_manager = self_name)

/- ### Config removal (`ConfigManager.remove`) -/

/-- `ConfigManager.get_registered_configs` with the `instances` filter
(config_manager.py lines 271-278): the registered configs whose instance
name is among the given instances. -/
def get_registered_configs_by_instances (st : GravityState) (instances : List String) :
    List (String × StoredConfig) :=
  st.config_files.filter fun fc => decide (fc.2.instance_name ∈ instances)

/-- `ConfigManager._deregister_config_file` (config_manager.py lines
160-167): pop the record from `config_files` into `remove_configs`. -/
def deregister_config_file (st : GravityState) (k : String) : GravityState :=
  match st.config_files.find? fun e => e.1 = k with
  | some e =>
    { config_files := st.config_files.filter fun e2 => decide (e2.1 ≠ k),
      remove_configs := setKey st.remove_configs k e.2 }
  | none => st

/-- `ConfigManager.remove` (config_manager.py lines 355-372), with
`os.path.abspath` supplied as a parameter.  If any argument matches a
registered instance name, the arguments are treated as instance names and
the matching configs' paths are deregistered; otherwise the arguments are
made absolute and treated as config paths, warning on unregistered ones.
Returns the new state and the warnings. -/
def cm_remove (abspath : String → String) (st : GravityState)
    (config_files : List String) : GravityState × List String :=
  let configs_by_instance := get_registered_configs_by_instances st config_files
  let pair :=
    if configs_by_instance ≠ [] then
      (([] : List String), configs_by_instance.map Prod.fst)
    else (config_files.map abspath, ([] : List String))
  let scanned := pair.1.foldl
    (fun (acc : List String × List String) cf =>
      if st.config_files.any fun e => e.1 = cf then (acc.1 ++ [cf], acc.2)
      else (acc.1, acc.2 ++ [cf ++ " is not registered"]))
    (pair.2, [])
  (scanned.1.foldl deregister_config_file st, scanned.2)

/- ### Concrete example configurations used to instantiate the theorems -/

/-- A gunicorn web service spec as `get_config` produces it. -/
def svcGunicorn : ServiceSpec :=
  { config_type := "galaxy", service_type := "gunicorn", service_name := "gunicorn" }

/-- A stored config whose instance name is explicitly `main`. -/
def cfgMain : StoredConfig :=
  { config_type := "galaxy", instance_name := "main",
    attribs := [("log_dir", "/var/log")], services := [svcGunicorn],
    process_manager := "systemd" }

/-- A fresh parse of the same config: same explicit instance name, same
attributes, same services — nothing has changed. -/
def pMain : ParsedConfig :=
  { instance_name := some "main", config_type := "galaxy",
    attribs := [("log_dir", "/var/log")], services := [svcGunicorn] }

/-- A parse environment in which `galaxy.yml` re-parses successfully and
unchanged. -/
def parseExplicit : String → ParseResult :=
  fun f => if f = "galaxy.yml" then ParseResult.ok pMain else ParseResult.invalid

/-- A state with the single registered config `galaxy.yml`. -/
def stOne : GravityState :=
  { config_files := [("galaxy.yml", cfgMain)], remove_configs := [] }

/-- The changeset of the first reconcile run on `stOne` under
`parseExplicit`. -/
def r1One : DetermineResult :=
  { new_configs := [("galaxy.yml", { base := cfgMain })],
    changed_instances := ["main"], remove_instances := [],
    remove_configs := [], warnings := [] }

/-- A parse environment in which every config file raises `OSError`. -/
def parseDown : String → ParseResult := fun _ => ParseResult.osError

/-- A registered config for the instance `live`. -/
def cfgLive : StoredConfig :=
  { config_type := "galaxy", instance_name := "live", attribs := [],
    services := [], process_manager := "systemd" }

/-- A config pending removal whose instance `stale` is referenced by no
registered config. -/
def cfgStale : StoredConfig :=
  { config_type := "galaxy", instance_name := "stale", attribs := [],
    services := [], process_manager := "systemd" }

/-- A state with one registered config (`a.yml`, instance `live`) and one
config pending removal (`b.yml`, instance `stale`). -/
def stC3 : GravityState :=
  { config_files := [("a.yml", cfgLive)], remove_configs := [("b.yml", cfgStale)] }

/-- The changeset of reconciling `stC3` when every file is unreadable. -/
def rC3 : DetermineResult :=
  { new_configs := [("a.yml", { base := cfgLive })],
    changed_instances := [], remove_instances := ["stale"],
    remove_configs := [("b.yml", cfgStale)], warnings := ["Unable to read a.yml"] }

/-- A parse environment in which `bad.yml` is structurally invalid and every
other file merely raises `OSError`. -/
def parseBadMix : String → ParseResult :=
  fun f => if f = "bad.yml" then ParseResult.invalid else ParseResult.osError

/-- A state with two registered configs, the first structurally invalid
under `parseBadMix`. -/
def stTwo : GravityState :=
  { config_files := [("bad.yml", cfgLive), ("good.yml", cfgStale)],
    remove_configs := [] }

/-- A single registered instance `main` assigned to the systemd backend. -/
def entriesOne : List InstEntry :=
  [{ instance_name := "main", process_manager := "systemd" }]

/-- A fixed unit-file renderer (the template text is irrelevant to the
file-set claims). -/
def renderFixed : String → SysConfig → SysService → String := fun _ _ s => s.service_name

/-- A standalone handler service of instance `a`. -/
def svcHandlerU : SysService :=
  { config_type := "galaxy", service_type := "standalone", service_name := "handler0" }

/-- The gunicorn service of instance `b`. -/
def svcWebU : SysService :=
  { config_type := "galaxy", service_type := "gunicorn", service_name := "gunicorn" }

/-- A systemd-owned config for instance `a` with one handler service. -/
def sysCfgA : SysConfig :=
  { instance_name := "a", process_manager := "systemd", services := [svcHandlerU] }

/-- A systemd-owned config for instance `b` with one web service. -/
def sysCfgB : SysConfig :=
  { instance_name := "b", process_manager := "systemd", services := [svcWebU] }

/-- A state with two registered configs for instances `live` and `stale`. -/
def stRem : GravityState :=
  { config_files := [("x.yml", cfgLive), ("y.yml", cfgStale)], remove_configs := [] }

/- ### Helper lemmas on the service diff and merge -/

theorem full_match_iff (a b : ServiceSpec) : a.full_match b = true ↔ a = b := by
  simp [ServiceSpec.full_match]

theorem any_full_match_iff (s : ServiceSpec) (l : List ServiceSpec) :
    (l.any fun t => s.full_match t) = true ↔ s ∈ l := by
  simp [List.any_eq_true, full_match_iff]

theorem mem_update_services (fresh stored : List ServiceSpec) (s : ServiceSpec) :
    s ∈ update_services_of fresh stored ↔ s ∈ fresh ∧ s ∉ stored := by
  simp only [update_services_of, List.mem_filter, Bool.not_eq_true', Bool.eq_false_iff, Ne,
    any_full_match_iff]

theorem mem_remove_services (fresh stored : List ServiceSpec) (s : ServiceSpec) :
    s ∈ remove_services_of fresh stored ↔ s ∈ stored ∧ s ∉ fresh := by
  simp [remove_services_of, List.mem_filter]

theorem commitServices_fold_mem (rem : List ServiceSpec) (stored : List ServiceSpec)
    (acc : List ServiceSpec) (x : ServiceSpec) :
    x ∈ stored.foldl (fun acc s => if s ∉ rem ∧ s ∉ acc then acc ++ [s] else acc) acc ↔
      x ∈ acc ∨ (x ∈ stored ∧ x ∉ rem) := by
  induction stored generalizing acc with
  | nil => simp
  | cons s rest ih =>
    simp only [List.foldl_cons]
    by_cases hs : s ∉ rem ∧ s ∉ acc
    · rw [if_pos hs, ih]
      simp only [List.mem_append, List.mem_singleton, List.mem_cons, List.not_mem_nil, or_false]
      constructor
      · rintro ((h | rfl) | h)
        · exact Or.inl h
        · exact Or.inr ⟨Or.inl rfl, hs.1⟩
        · exact Or.inr ⟨Or.inr h.1, h.2⟩
      · rintro (h | ⟨(rfl | h), hr⟩)
        · exact Or.inl (Or.inl h)
        · exact Or.inl (Or.inr rfl)
        · exact Or.inr ⟨h, hr⟩
    · rw [if_neg hs, ih]
      push_neg at hs
      simp only [List.mem_cons]
      constructor
      · rintro (h | h)
        · exact Or.inl h
        · exact Or.inr ⟨Or.inr h.1, h.2⟩
      · rintro (h | ⟨(rfl | h), hr⟩)
        · exact Or.inl h
        · exact Or.inl (hs hr)
        · exact Or.inr ⟨h, hr⟩

theorem diffConfig_base (p : ParsedConfig) (stored : StoredConfig) :
    (diffConfig p stored).changes.base = stored := by
  simp [diffConfig]

theorem applyChanges_services (c : ConfigChanges) :
    (applyChanges c).services =
      if c.update_services ≠ [] ∨ c.remove_services ≠ [] then
        commitServices c.update_services c.remove_services c.base.services
      else c.base.services :=
  rfl

theorem applyChanges_attribs (c : ConfigChanges) :
    (applyChanges c).attribs = match c.update_attribs with
      | some v => v
      | none => c.base.attribs :=
  rfl

theorem applyChanges_instance_name (c : ConfigChanges) :
    (applyChanges c).instance_name = match c.update_instance_name with
      | some v => v
      | none => c.base.instance_name :=
  rfl

theorem mem_commitServices (upd rem stored : List ServiceSpec) (x : ServiceSpec) :
    x ∈ commitServices upd rem stored ↔ x ∈ upd ∨ (x ∈ stored ∧ x ∉ rem) :=
  commitServices_fold_mem rem stored upd x

theorem commitServices_fold_nodup (rem : List ServiceSpec) (stored : List ServiceSpec)
    (acc : List ServiceSpec) (h : acc.Nodup) :
    (stored.foldl (fun acc s => if s ∉ rem ∧ s ∉ acc then acc ++ [s] else acc) acc).Nodup := by
  induction stored generalizing acc with
  | nil => simpa using h
  | cons s rest ih =>
    simp only [List.foldl_cons]
    by_cases hs : s ∉ rem ∧ s ∉ acc
    · rw [if_pos hs]
      exact ih _ (by simp [List.nodup_append, h, hs.2])
    · rw [if_neg hs]
      exact ih _ h

theorem commitServices_nodup (upd rem stored : List ServiceSpec) (h : upd.Nodup) :
    (commitServices upd rem stored).Nodup :=
  commitServices_fold_nodup rem stored upd h

/- ### Structure of a successful scan -/

theorem diffConfig_inst (p : ParsedConfig) (stored : StoredConfig) :
    (diffConfig p stored).inst = p.instance_name.getD stored.instance_name := by
  rcases hn : p.instance_name with _ | n <;> simp [diffConfig, hn]

theorem processConfigs_ok_shape (parse : String → ParseResult)
    (files : List (String × StoredConfig)) (a : ScanAcc)
    (h : processConfigs parse files = Except.ok a) :
    a.new_configs = files.map (fun fc => (fc.1, stepChanges parse fc.1 fc.2)) ∧
      a.insts = files.map fun fc => resolvedName parse fc.1 fc.2 := by
  induction files generalizing a with
  | nil =>
    simp only [processConfigs] at h
    cases h
    exact ⟨rfl, rfl⟩
  | cons fc rest ih =>
    obtain ⟨f, stored⟩ := fc
    simp only [processConfigs] at h
    cases hp : parse f with
    | invalid => rw [hp] at h; exact absurd h (by simp)
    | osError =>
      rw [hp] at h
      cases hrest : processConfigs parse rest with
      | error e => rw [hrest] at h; exact absurd h (by simp [Except.map])
      | ok b =>
        rw [hrest] at h
        simp only [Except.map] at h
        cases h
        obtain ⟨h1, h2⟩ := ih b hrest
        constructor
        · simpa [stepChanges, hp] using h1
        · simpa [resolvedName, hp] using h2
    | ok p =>
      rw [hp] at h
      cases hrest : processConfigs parse rest with
      | error e => rw [hrest] at h; exact absurd h (by simp [Except.map])
      | ok b =>
        rw [hrest] at h
        simp only [Except.map] at h
        cases h
        obtain ⟨h1, h2⟩ := ih b hrest
        constructor
        · simpa [stepChanges, hp] using h1
        · simpa [resolvedName, hp, diffConfig_inst] using h2

theorem processConfigs_changed_mem (parse : String → ParseResult)
    (files : List (String × StoredConfig)) (a : ScanAcc)
    (h : processConfigs parse files = Except.ok a) (n : String) :
    n ∈ a.changed ↔
      ∃ fc ∈ files, ∃ p, parse fc.1 = ParseResult.ok p ∧ n ∈ (diffConfig p fc.2).changed := by
  induction files generalizing a with
  | nil =>
    simp only [processConfigs] at h
    cases h
    simp
  | cons fc rest ih =>
    obtain ⟨f, stored⟩ := fc
    simp only [processConfigs] at h
    cases hp : parse f with
    | invalid => rw [hp] at h; exact absurd h (by simp)
    | osError =>
      rw [hp] at h
      cases hrest : processConfigs parse rest with
      | error e => rw [hrest] at h; exact absurd h (by simp [Except.map])
      | ok b =>
        rw [hrest] at h
        simp only [Except.map] at h
        cases h
        show n ∈ b.changed ↔ _
        rw [ih b hrest]
        constructor
        · rintro ⟨fc, hfc, p, hpp, hn⟩
          exact ⟨fc, List.mem_cons_of_mem _ hfc, p, hpp, hn⟩
        · rintro ⟨fc, hfc, p, hpp, hn⟩
          rcases List.mem_cons.mp hfc with rfl | hfc
          · rw [hp] at hpp; exact absurd hpp (by simp)
          · exact ⟨fc, hfc, p, hpp, hn⟩
    | ok p =>
      rw [hp] at h
      cases hrest : processConfigs parse rest with
      | error e => rw [hrest] at h; exact absurd h (by simp [Except.map])
      | ok b =>
        rw [hrest] at h
        simp only [Except.map] at h
        cases h
        show n ∈ (diffConfig p stored).changed ++ b.changed ↔ _
        simp only [List.mem_append]
        rw [ih b hrest]
        constructor
        · rintro (hn | ⟨fc, hfc, q, hq, hn⟩)
          · exact ⟨(f, stored), List.mem_cons_self _ _, p, hp, hn⟩
          · exact ⟨fc, List.mem_cons_of_mem _ hfc, q, hq, hn⟩
        · rintro ⟨fc, hfc, q, hq, hn⟩
          rcases List.mem_cons.mp hfc with rfl | hfc
          · rw [hp] at hq
            cases hq
            exact Or.inl hn
          · exact Or.inr ⟨fc, hfc, q, hq, hn⟩

theorem processConfigs_ok_of_no_invalid (parse : String → ParseResult)
    (files : List (String × StoredConfig))
    (h : ∀ fc ∈ files, parse fc.1 ≠ ParseResult.invalid) :
    ∃ a, processConfigs parse files = Except.ok a := by
  induction files with
  | nil => exact ⟨⟨[], [], [], []⟩, rfl⟩
  | cons fc rest ih =>
    obtain ⟨f, stored⟩ := fc
    obtain ⟨a, ha⟩ := ih fun fc hfc => h fc (List.mem_cons_of_mem _ hfc)
    cases hp : parse f with
    | invalid => exact absurd hp (h (f, stored) (List.mem_cons_self _ _))
    | osError =>
      refine ⟨⟨(f, { base := stored }) :: a.new_configs, a.changed,
        stored.instance_name :: a.insts, ("Unable to read " ++ f) :: a.warns⟩, ?_⟩
      simp only [processConfigs, hp, ha, Except.map]
    | ok p =>
      refine ⟨⟨(f, (diffConfig p stored).changes) :: a.new_configs,
        (diffConfig p stored).changed ++ a.changed,
        (diffConfig p stored).inst :: a.insts, a.warns⟩, ?_⟩
      simp only [processConfigs, hp, ha, Except.map]

theorem processConfigs_err_of_invalid (parse : String → ParseResult)
    (files : List (String × StoredConfig)) (fc : String × StoredConfig)
    (hmem : fc ∈ files) (h : parse fc.1 = ParseResult.invalid) :
    processConfigs parse files = Except.error () := by
  induction files with
  | nil => exact absurd hmem (List.not_mem_nil fc)
  | cons fc0 rest ih =>
    obtain ⟨f, stored⟩ := fc0
    rcases List.mem_cons.mp hmem with rfl | hmem
    · simp only [processConfigs, h]
    · cases hp : parse f with
      | invalid => simp only [processConfigs, hp]
      | osError => simp only [processConfigs, hp, ih hmem, Except.map]
      | ok p => simp only [processConfigs, hp, ih hmem, Except.map]

/- ### Lemmas about committing a changeset -/

theorem applyChanges_id (c : StoredConfig) : applyChanges { base := c } = c := by
  simp [applyChanges]

theorem setKey_cons_ne (f k : String) (v w : StoredConfig) (l : List (String × StoredConfig))
    (h : f ≠ k) : setKey ((f, v) :: l) k w = (f, v) :: setKey l k w := by
  by_cases hl : (l.any fun e => decide (e.1 = k)) = true
  · simp [setKey, List.any_cons, hl, h]
  · simp [setKey, List.any_cons, hl, h]

theorem register_fold_config_files (l : List (String × ConfigChanges)) (st : GravityState) :
    (l.foldl
      (fun acc fc => { acc with config_files := setKey acc.config_files fc.1 (applyChanges fc.2) })
      st).config_files =
    l.foldl (fun acc fc => setKey acc fc.1 (applyChanges fc.2)) st.config_files := by
  induction l generalizing st with
  | nil => rfl
  | cons fc rest ih => simp only [List.foldl_cons, ih]

theorem register_fold_remove_configs (l : List (String × ConfigChanges)) (st : GravityState) :
    (l.foldl
      (fun acc fc => { acc with config_files := setKey acc.config_files fc.1 (applyChanges fc.2) })
      st).remove_configs = st.remove_configs := by
  induction l generalizing st with
  | nil => rfl
  | cons fc rest ih => simp only [List.foldl_cons, ih]

theorem register_config_files (st : GravityState) (r : DetermineResult) :
    (register_config_changes st r).config_files =
      r.new_configs.foldl (fun acc fc => setKey acc fc.1 (applyChanges fc.2)) st.config_files := by
  simp only [register_config_changes]
  rw [register_fold_config_files]

theorem register_remove_configs (st : GravityState) (r : DetermineResult) :
    (register_config_changes st r).remove_configs =
      r.remove_configs.foldl (fun acc fc => delKey acc fc.1) st.remove_configs := by
  simp only [register_config_changes]
  rw [register_fold_remove_configs]

theorem delKey_fold_eq_filter (ks : List (String × StoredConfig))
    (m : List (String × StoredConfig)) :
    ks.foldl (fun acc fc => delKey acc fc.1) m =
      m.filter fun e => decide (e.1 ∉ ks.map Prod.fst) := by
  induction ks generalizing m with
  | nil => simp
  | cons k rest ih =>
    simp only [List.foldl_cons]
    rw [ih (delKey m k.1)]
    simp only [delKey, List.filter_filter, List.map_cons]
    apply List.filter_congr
    intro e _
    by_cases h1 : e.1 = k.1 <;> by_cases h2 : e.1 ∈ rest.map Prod.fst <;> simp [h1, h2]

theorem purge_all (m : List (String × StoredConfig)) :
    m.foldl (fun acc fc => delKey acc fc.1) m = [] := by
  rw [delKey_fold_eq_filter]
  rw [List.filter_eq_nil_iff]
  intro e he
  simp only [decide_eq_true_eq, not_not]
  exact List.mem_map_of_mem Prod.fst he

/-- The foldl of `register_config_changes` over the per-file changesets of a
successful scan rewrites each stored record in place: with unique keys, the
persisted table afterwards is the pointwise application of each staged
changeset. -/
theorem setKey_fold_map (ch : String → StoredConfig → ConfigChanges)
    (base : List (String × StoredConfig)) (hk : (base.map Prod.fst).Nodup) :
    (base.map fun fc => (fc.1, ch fc.1 fc.2)).foldl
        (fun acc fc => setKey acc fc.1 (applyChanges fc.2)) base =
      base.map fun fc => (fc.1, applyChanges (ch fc.1 fc.2)) := by
  induction base with
  | nil => rfl
  | cons fc rest ih =>
    obtain ⟨f, c⟩ := fc
    simp only [List.map_cons, List.map_nil] at hk ⊢
    rw [List.nodup_cons] at hk
    simp only [List.foldl_cons]
    have hset : setKey ((f, c) :: rest) f (applyChanges (ch f c)) =
        (f, applyChanges (ch f c)) :: rest := by
      have hrest0 : ∀ e ∈ rest,
          (if e.1 = f then (f, applyChanges (ch f c)) else e) = e := by
        intro e he
        rw [if_neg]
        intro heq
        exact hk.1 (heq ▸ List.mem_map_of_mem Prod.fst he)
      simp only [setKey, List.any_cons, decide_eq_true_eq]
      rw [if_pos (by simp), List.map_cons]
      congr 1
      · simp
      · exact (List.map_congr_left hrest0).trans (List.map_id rest)
    have hcomm : ∀ (l : List (String × ConfigChanges)) (acc : List (String × StoredConfig))
        (v : String × StoredConfig), (∀ e ∈ l, e.1 ≠ v.1) →
        l.foldl (fun acc fc => setKey acc fc.1 (applyChanges fc.2)) (v :: acc) =
          v :: l.foldl (fun acc fc => setKey acc fc.1 (applyChanges fc.2)) acc := by
      intro l
      induction l with
      | nil => intro acc v _; rfl
      | cons e rest2 ih2 =>
        intro acc v hne
        simp only [List.foldl_cons]
        rw [show setKey (v :: acc) e.1 (applyChanges e.2) =
            v :: setKey acc e.1 (applyChanges e.2) from
          setKey_cons_ne v.1 e.1 v.2 _ acc
            fun heq => hne e (List.mem_cons_self _ _) heq.symm]
        exact ih2 (setKey acc e.1 (applyChanges e.2)) v
          fun e2 he2 => hne e2 (List.mem_cons_of_mem _ he2)
    rw [hset, hcomm _ rest (f, applyChanges (ch f c)) ?hne]
    · rw [ih hk.2]
    case hne =>
      intro e he
      obtain ⟨fc2, hfc2, rfl⟩ := List.mem_map.mp he
      intro heq
      have heq2 : fc2.1 = f := heq
      exact hk.1 (heq2 ▸ List.mem_map_of_mem Prod.fst hfc2)

/-- Membership in the committed service list, for the diff staged by
`diffConfig`: a spec survives iff it was freshly staged for update or was a
stored spec not staged for removal. -/
theorem mem_applyChanges_diff_services (p : ParsedConfig) (stored : StoredConfig)
    (x : ServiceSpec) :
    x ∈ (applyChanges (diffConfig p stored).changes).services ↔
      x ∈ update_services_of p.services stored.services ∨
        (x ∈ stored.services ∧ x ∉ remove_services_of p.services stored.services) := by
  have hupd : (diffConfig p stored).changes.update_services
      = update_services_of p.services stored.services := by
    simp [diffConfig]
  have hrem : (diffConfig p stored).changes.remove_services
      = remove_services_of p.services stored.services := by
    simp [diffConfig]
  rw [applyChanges_services, hupd, hrem, diffConfig_base]
  by_cases hbranch : update_services_of p.services stored.services ≠ [] ∨
      remove_services_of p.services stored.services ≠ []
  · rw [if_pos hbranch, mem_commitServices]
  · rw [if_neg hbranch]
    rcases not_or.mp hbranch with ⟨h1, h2⟩
    rw [not_not] at h1 h2
    simp [h1, h2]

theorem applyChanges_diff_attribs (p : ParsedConfig) (stored : StoredConfig) :
    (applyChanges (diffConfig p stored).changes).attribs = p.attribs := by
  rw [applyChanges_attribs]
  have : (diffConfig p stored).changes.update_attribs =
      if p.attribs ≠ stored.attribs then some p.attribs else none := by
    simp [diffConfig]
  rw [this]
  by_cases h : p.attribs ≠ stored.attribs
  · rw [if_pos h]
  · rw [if_neg h, diffConfig_base]
    rw [not_not] at h
    exact h.symm

theorem applyChanges_diff_instance_name (p : ParsedConfig) (stored : StoredConfig) :
    (applyChanges (diffConfig p stored).changes).instance_name =
      p.instance_name.getD stored.instance_name := by
  rw [applyChanges_instance_name]
  have hbase := diffConfig_base p stored
  rcases hn : p.instance_name with _ | n
  · have : (diffConfig p stored).changes.update_instance_name = none := by
      simp [diffConfig, hn]
    rw [this, hbase, Option.getD_none]
  · have : (diffConfig p stored).changes.update_instance_name =
        if n ≠ stored.instance_name then some n else none := by
      simp [diffConfig, hn]
    rw [this, Option.getD_some]
    by_cases h : n ≠ stored.instance_name
    · rw [if_pos h]
    · rw [if_neg h, hbase]
      rw [not_not] at h
      exact h.symm

/-- Re-diffing a config right after its staged diff was committed stages
nothing further: attributes and instance name agree, no service is staged
for update or removal, and the only `changed_instances` entry is the
explicit instance name when the parse supplies one. -/
theorem second_diff_clean (p : ParsedConfig) (stored : StoredConfig) :
    let stored' := applyChanges (diffConfig p stored).changes
    (diffConfig p stored').changes.update_attribs = none ∧
    (diffConfig p stored').changes.update_instance_name = none ∧
    (diffConfig p stored').changes.update_services = [] ∧
    (diffConfig p stored').changes.remove_services = [] ∧
    (diffConfig p stored').changed = (match p.instance_name with
      | some n => [n]
      | none => []) := by
  intro stored'
  have hattr : p.attribs = stored'.attribs := (applyChanges_diff_attribs p stored).symm
  have hname : stored'.instance_name = p.instance_name.getD stored.instance_name :=
    applyChanges_diff_instance_name p stored
  have hupd2 : update_services_of p.services stored'.services = [] := by
    rw [update_services_of, List.filter_eq_nil_iff]
    intro s hs
    simp only [Bool.not_eq_true', Bool.eq_false_iff, not_not, any_full_match_iff]
    rw [mem_applyChanges_diff_services]
    by_cases hmem : s ∈ stored.services
    · refine Or.inr ⟨hmem, fun hrem => ?_⟩
      rw [mem_remove_services] at hrem
      exact hrem.2 hs
    · exact Or.inl ((mem_update_services _ _ _).mpr ⟨hs, hmem⟩)
  have hrem2 : remove_services_of p.services stored'.services = [] := by
    rw [remove_services_of, List.filter_eq_nil_iff]
    intro s hs
    simp only [decide_eq_true_eq, not_not]
    rw [mem_applyChanges_diff_services] at hs
    rcases hs with hs | hs
    · exact ((mem_update_services _ _ _).mp hs).1
    · by_contra hf
      exact absurd ((mem_remove_services _ _ _).mpr ⟨hs.1, hf⟩) hs.2
  have hattr2 : ¬ p.attribs ≠ stored'.attribs := by rw [not_not]; exact hattr
  rcases hn : p.instance_name with _ | n
  · refine ⟨?_, ?_, ?_, ?_, ?_⟩ <;>
      simp [diffConfig, hn, hattr2, hupd2, hrem2]
  · have hne : ¬ n ≠ stored'.instance_name := by
      rw [not_not, hname, hn, Option.getD_some]
    refine ⟨?_, ?_, ?_, ?_, ?_⟩ <;>
      simp [diffConfig, hn, hattr2, hupd2, hrem2, hne]

/- ### Second-run lemmas -/

theorem processConfigs_ok_no_invalid (parse : String → ParseResult)
    (files : List (String × StoredConfig)) (a : ScanAcc)
    (h : processConfigs parse files = Except.ok a) :
    ∀ fc ∈ files, parse fc.1 ≠ ParseResult.invalid := by
  intro fc hfc hinv
  rw [processConfigs_err_of_invalid parse files fc hfc hinv] at h
  exact absurd h (by simp)

theorem dedup_fold_mem (l : List StoredConfig) (acc : List String) (n : String) :
    n ∈ l.foldl
        (fun acc c => if c.instance_name ∈ acc then acc else acc ++ [c.instance_name]) acc ↔
      n ∈ acc ∨ n ∈ l.map StoredConfig.instance_name := by
  induction l generalizing acc with
  | nil => simp
  | cons c rest ih =>
    simp only [List.foldl_cons, List.map_cons, List.mem_cons]
    by_cases hc : c.instance_name ∈ acc
    · rw [if_pos hc, ih]
      constructor
      · rintro (h | h)
        · exact Or.inl h
        · exact Or.inr (Or.inr h)
      · rintro (h | rfl | h)
        · exact Or.inl h
        · exact Or.inl hc
        · exact Or.inr h
    · rw [if_neg hc, ih]
      simp only [List.mem_append, List.mem_singleton]
      tauto

theorem registeredInstanceNames_mem (st : GravityState) (inc : Bool) (n : String) :
    n ∈ registeredInstanceNames st inc ↔
      n ∈ (st.config_files.map Prod.snd ++
        (if inc then st.remove_configs.map Prod.snd else [])).map StoredConfig.instance_name := by
  rw [registeredInstanceNames, dedup_fold_mem]
  simp

theorem registeredInstanceNames_mem_of_empty_rc (st : GravityState)
    (h : st.remove_configs = []) (n : String) :
    n ∈ registeredInstanceNames st true ↔
      ∃ fc ∈ st.config_files, fc.2.instance_name = n := by
  rw [registeredInstanceNames_mem, h]
  have hnil : (if (true : Bool) then
      (([] : List (String × StoredConfig)).map Prod.snd) else []) = [] := by simp
  rw [hnil, List.append_nil, List.map_map]
  constructor
  · intro hm
    obtain ⟨fc, hfc, heq⟩ := List.mem_map.mp hm
    exact ⟨fc, hfc, heq⟩
  · rintro ⟨fc, hfc, heq⟩
    exact List.mem_map.mpr ⟨fc, hfc, heq⟩

theorem resolvedName_after_commit (parse : String → ParseResult) (f : String)
    (c : StoredConfig) :
    resolvedName parse f (applyChanges (stepChanges parse f c)) =
      (applyChanges (stepChanges parse f c)).instance_name := by
  cases hp : parse f with
  | invalid => simp [resolvedName, hp]
  | osError => simp [resolvedName, hp]
  | ok p =>
    simp only [resolvedName, hp, stepChanges]
    rcases hn : p.instance_name with _ | m
    · rw [Option.getD_none]
    · rw [Option.getD_some, applyChanges_diff_instance_name, hn, Option.getD_some]

theorem stepChanges_after_commit_clean (parse : String → ParseResult) (f : String)
    (c : StoredConfig) :
    (stepChanges parse f (applyChanges (stepChanges parse f c))).update_attribs = none ∧
    (stepChanges parse f (applyChanges (stepChanges parse f c))).update_instance_name = none ∧
    (stepChanges parse f (applyChanges (stepChanges parse f c))).update_services = [] ∧
    (stepChanges parse f (applyChanges (stepChanges parse f c))).remove_services = [] := by
  cases hp : parse f with
  | invalid => simp [stepChanges, hp]
  | osError => simp [stepChanges, hp]
  | ok p =>
    simp only [stepChanges, hp]
    obtain ⟨h1, h2, h3, h4, -⟩ := second_diff_clean p c
    exact ⟨h1, h2, h3, h4⟩

theorem second_diff_changed_mem (parse : String → ParseResult) (f : String)
    (c : StoredConfig) (p : ParsedConfig) (hp : parse f = ParseResult.ok p) (n : String) :
    n ∈ (diffConfig p (applyChanges (stepChanges parse f c))).changed ↔
      p.instance_name = some n := by
  have hc : applyChanges (stepChanges parse f c) = applyChanges (diffConfig p c).changes := by
    rw [stepChanges, hp]
  rw [hc]
  obtain ⟨-, -, -, -, h5⟩ := second_diff_clean p c
  rw [h5]
  rcases hn : p.instance_name with _ | m <;> simp [eq_comm]

/-- C2 (amended): running reconcile and commit, then reconciling again with
the same parse outcomes, stages nothing on the second run: no
`update_attribs`, `update_instance_name`, `update_services` or
`remove_services` for any config, and `remove_instances` is empty.  However
`changed_instances` on the second run is not empty in general: it contains
exactly the instance names that are explicitly set in some config's fresh
parse, because `determine_config_changes` marks an explicitly named instance
as changed unconditionally. -/
theorem reconcile_commit_second_run (parse : String → ParseResult) (st : GravityState)
    (r : DetermineResult) (hk : (st.config_files.map Prod.fst).Nodup)
    (h : determine_config_changes parse st = Except.ok r) :
    ∃ r2, determine_config_changes parse (register_config_changes st r) = Except.ok r2 ∧
      (∀ fc ∈ r2.new_configs, fc.2.update_attribs = none ∧ fc.2.update_instance_name = none ∧
        fc.2.update_services = [] ∧ fc.2.remove_services = []) ∧
      r2.remove_instances = [] ∧
      (∀ n, n ∈ r2.changed_instances ↔
        ∃ fc ∈ st.config_files, ∃ p, parse fc.1 = ParseResult.ok p ∧
          p.instance_name = some n) := by
  cases hpc : processConfigs parse st.config_files with
  | error e =>
    rw [determine_config_changes, hpc] at h
    exact absurd h (by simp [Except.map])
  | ok a =>
    rw [determine_config_changes, hpc] at h
    simp only [Except.map, Except.ok.injEq] at h
    subst h
    obtain ⟨hnewc, hinsts⟩ := processConfigs_ok_shape parse st.config_files a hpc
    have hcf : (register_config_changes st
        { new_configs := a.new_configs,
          changed_instances := a.changed,
          remove_instances :=
            (registeredInstanceNames st true).filter (fun n => decide (n ∉ a.insts)),
          remove_configs := st.remove_configs,
          warnings := a.warns }).config_files =
        st.config_files.map
          (fun fc => (fc.1, applyChanges (stepChanges parse fc.1 fc.2))) := by
      rw [register_config_files]
      show a.new_configs.foldl _ _ = _
      rw [hnewc]
      exact setKey_fold_map (stepChanges parse) st.config_files hk
    have hrc : (register_config_changes st
        { new_configs := a.new_configs,
          changed_instances := a.changed,
          remove_instances :=
            (registeredInstanceNames st true).filter (fun n => decide (n ∉ a.insts)),
          remove_configs := st.remove_configs,
          warnings := a.warns }).remove_configs = [] := by
      rw [register_remove_configs]
      exact purge_all st.remove_configs
    have hnoinv : ∀ fc ∈ (register_config_changes st
        { new_configs := a.new_configs,
          changed_instances := a.changed,
          remove_instances :=
            (registeredInstanceNames st true).filter (fun n => decide (n ∉ a.insts)),
          remove_configs := st.remove_configs,
          warnings := a.warns }).config_files, parse fc.1 ≠ ParseResult.invalid := by
      rw [hcf]
      intro fc hfc
      obtain ⟨fc0, hfc0, rfl⟩ := List.mem_map.mp hfc
      exact processConfigs_ok_no_invalid parse st.config_files a hpc fc0 hfc0
    obtain ⟨a2, ha2⟩ := processConfigs_ok_of_no_invalid parse _ hnoinv
    obtain ⟨hnewc2, hinsts2⟩ := processConfigs_ok_shape parse _ a2 ha2
    rw [hcf] at hnewc2 hinsts2
    refine ⟨_, by rw [determine_config_changes, ha2]; rfl, ?_, ?_, ?_⟩
    · show ∀ fc ∈ a2.new_configs, _
      rw [hnewc2]
      intro fc hfc
      obtain ⟨fc1, hfc1, rfl⟩ := List.mem_map.mp hfc
      obtain ⟨fc0, hfc0, rfl⟩ := List.mem_map.mp hfc1
      exact stepChanges_after_commit_clean parse fc0.1 fc0.2
    · show (registeredInstanceNames _ true).filter _ = []
      rw [List.filter_eq_nil_iff]
      intro n hn
      simp only [decide_eq_true_eq, not_not]
      rw [registeredInstanceNames_mem_of_empty_rc _ hrc] at hn
      obtain ⟨fc1, hfc1, rfl⟩ := hn
      rw [hcf] at hfc1
      obtain ⟨fc0, hfc0, rfl⟩ := List.mem_map.mp hfc1
      rw [hinsts2, List.mem_map]
      refine ⟨(fc0.1, applyChanges (stepChanges parse fc0.1 fc0.2)), ?_, ?_⟩
      · exact List.mem_map_of_mem _ hfc0
      · exact resolvedName_after_commit parse fc0.1 fc0.2
    · intro n
      show n ∈ a2.changed ↔ _
      rw [processConfigs_changed_mem parse _ a2 ha2 n]
      constructor
      · rintro ⟨fc1, hfc1, p, hp, hn⟩
        rw [hcf] at hfc1
        obtain ⟨fc0, hfc0, rfl⟩ := List.mem_map.mp hfc1
        refine ⟨fc0, hfc0, p, hp, ?_⟩
        exact (second_diff_changed_mem parse fc0.1 fc0.2 p hp n).mp hn
      · rintro ⟨fc0, hfc0, p, hp, hn⟩
        refine ⟨(fc0.1, applyChanges (stepChanges parse fc0.1 fc0.2)), ?_, p, hp, ?_⟩
        · rw [hcf]
          exact List.mem_map_of_mem _ hfc0
        · exact (second_diff_changed_mem parse fc0.1 fc0.2 p hp n).mpr hn

/-- C1: the staged service diff and the committed canonical list.
For fresh services `F` and stored services `S`: `update_services` is exactly
the fresh specs with no full structural match among the stored specs,
`remove_services` is exactly the stored specs equal to no fresh spec, and
the committed list contains a spec iff it is either in `update_services` or
a stored spec not staged for removal, with no duplicates (given duplicate-free
inputs) and with nothing from `remove_services` reinstated.
`determine_config_changes` stages this diff via `diffConfig` and
`register_config_changes` commits it via `applyChanges`. -/
theorem service_diff_and_commit_correct (p : ParsedConfig) (stored : StoredConfig)
    (hF : p.services.Nodup) (hS : stored.services.Nodup) :
    (diffConfig p stored).changes.update_services = update_services_of p.services stored.services ∧
    (diffConfig p stored).changes.remove_services = remove_services_of p.services stored.services ∧
    (∀ x, x ∈ (applyChanges (diffConfig p stored).changes).services ↔
      (x ∈ stored.services ∧ x ∉ remove_services_of p.services stored.services) ∨
        x ∈ update_services_of p.services stored.services) ∧
    (applyChanges (diffConfig p stored).changes).services.Nodup ∧
    (∀ x ∈ remove_services_of p.services stored.services,
      x ∉ (applyChanges (diffConfig p stored).changes).services) := by
  have hupd : (diffConfig p stored).changes.update_services
      = update_services_of p.services stored.services := by
    simp [diffConfig]
  have hrem : (diffConfig p stored).changes.remove_services
      = remove_services_of p.services stored.services := by
    simp [diffConfig]
  have hsvc : (applyChanges (diffConfig p stored).changes).services =
      if update_services_of p.services stored.services ≠ [] ∨
          remove_services_of p.services stored.services ≠ [] then
        commitServices (update_services_of p.services stored.services)
          (remove_services_of p.services stored.services) stored.services
      else stored.services := by
    rw [applyChanges_services, hupd, hrem, diffConfig_base]
  refine ⟨hupd, hrem, ?_, ?_, ?_⟩
  · intro x
    rw [hsvc]
    by_cases hbranch : update_services_of p.services stored.services ≠ [] ∨
        remove_services_of p.services stored.services ≠ []
    · rw [if_pos hbranch, mem_commitServices]
      tauto
    · rw [if_neg hbranch]
      rcases not_or.mp hbranch with ⟨h1, h2⟩
      rw [not_not] at h1 h2
      simp [h1, h2]
  · rw [hsvc]
    by_cases hbranch : update_services_of p.services stored.services ≠ [] ∨
        remove_services_of p.services stored.services ≠ []
    · rw [if_pos hbranch]
      exact commitServices_nodup _ _ _ (hF.filter _)
    · rw [if_neg hbranch]
      exact hS
  · intro x hx hmem
    rw [hsvc] at hmem
    by_cases hbranch : update_services_of p.services stored.services ≠ [] ∨
        remove_services_of p.services stored.services ≠ []
    · rw [if_pos hbranch, mem_commitServices] at hmem
      rcases hmem with hmem | hmem
      · rw [mem_update_services] at hmem
        rw [mem_remove_services] at hx
        exact hmem.2 hx.1
      · exact hmem.2 hx
    · rcases not_or.mp hbranch with ⟨_, h2⟩
      rw [not_not] at h2
      rw [h2] at hx
      exact absurd hx (List.not_mem_nil x)

/-- Witness for `service_diff_and_commit_correct` at a concrete input: stored
services `[a]`, fresh services `[b]` (`b ≠ a`): `b` is staged for update,
`a` for removal, and the committed list is exactly `[b]`. -/
theorem service_diff_and_commit_correct_witness :
    let a : ServiceSpec := { config_type := "galaxy", service_type := "standalone",
                             service_name := "old-handler" }
    let b : ServiceSpec := { config_type := "galaxy", service_type := "gunicorn",
                             service_name := "gunicorn" }
    let p : ParsedConfig := { instance_name := none, config_type := "galaxy",
                              attribs := [], services := [b] }
    let stored : StoredConfig := { config_type := "galaxy", instance_name := "main",
                                   attribs := [], services := [a], process_manager := "systemd" }
    (diffConfig p stored).changes.update_services = update_services_of p.services stored.services ∧
    (diffConfig p stored).changes.remove_services = remove_services_of p.services stored.services ∧
    (∀ x, x ∈ (applyChanges (diffConfig p stored).changes).services ↔
      (x ∈ stored.services ∧ x ∉ remove_services_of p.services stored.services) ∨
        x ∈ update_services_of p.services stored.services) ∧
    (applyChanges (diffConfig p stored).changes).services.Nodup ∧
    (∀ x ∈ remove_services_of p.services stored.services,
      x ∉ (applyChanges (diffConfig p stored).changes).services) :=
  service_diff_and_commit_correct _ _ (by decide) (by decide)

/-- Witness for `reconcile_commit_second_run`: the single-config state
`stOne` whose config re-parses unchanged with an explicit instance name. -/
theorem reconcile_commit_second_run_witness :
    ∃ r2, determine_config_changes parseExplicit
        (register_config_changes stOne r1One) = Except.ok r2 ∧
      (∀ fc ∈ r2.new_configs, fc.2.update_attribs = none ∧ fc.2.update_instance_name = none ∧
        fc.2.update_services = [] ∧ fc.2.remove_services = []) ∧
      r2.remove_instances = [] ∧
      (∀ n, n ∈ r2.changed_instances ↔
        ∃ fc ∈ stOne.config_files, ∃ p, parseExplicit fc.1 = ParseResult.ok p ∧
          p.instance_name = some n) :=
  reconcile_commit_second_run parseExplicit stOne r1One (by decide) (by rfl)

/-- Counterexample to C2 as stated: on the unchanged single-config state
`stOne` (explicit instance name `main`), the second reconcile run after a
commit still reports `changed_instances = ["main"]`, so the second-run
changeset is not empty. -/
theorem second_run_changed_instances_nonempty :
    ((determine_config_changes parseExplicit stOne).bind
        (fun r => determine_config_changes parseExplicit
          (register_config_changes stOne r))).map
        (fun r2 => r2.changed_instances) = Except.ok ["main"] ∧
      (["main"] : List String) ≠ [] :=
  ⟨rfl, by decide⟩

/-- C3: after a successful `determine_config_changes`, an instance name is in
`remove_instances` iff it was previously known (pending-removal configs
included) and no registered config still resolves to it, where a config
whose re-parse failed counts as resolving to its stored instance name. -/
theorem remove_instances_characterization (parse : String → ParseResult) (st : GravityState)
    (r : DetermineResult) (h : determine_config_changes parse st = Except.ok r) (n : String) :
    n ∈ r.remove_instances ↔
      (n ∈ registeredInstanceNames st true ∧
        ∀ fc ∈ st.config_files, resolvedName parse fc.1 fc.2 ≠ n) := by
  cases hpc : processConfigs parse st.config_files with
  | error e =>
    rw [determine_config_changes, hpc] at h
    exact absurd h (by simp [Except.map])
  | ok a =>
    rw [determine_config_changes, hpc] at h
    simp only [Except.map, Except.ok.injEq] at h
    subst h
    obtain ⟨-, hinsts⟩ := processConfigs_ok_shape parse st.config_files a hpc
    show n ∈ (registeredInstanceNames st true).filter (fun m => decide (m ∉ a.insts)) ↔ _
    rw [List.mem_filter]
    simp only [decide_eq_true_eq]
    rw [hinsts]
    constructor
    · rintro ⟨hreg, hnot⟩
      refine ⟨hreg, fun fc hfc heq => hnot ?_⟩
      rw [List.mem_map]
      exact ⟨fc, hfc, heq⟩
    · rintro ⟨hreg, hall⟩
      refine ⟨hreg, fun hmem => ?_⟩
      obtain ⟨fc, hfc, heq⟩ := List.mem_map.mp hmem
      exact hall fc hfc heq

/-- Witness for `remove_instances_characterization`: in state `stC3` with
every file unreadable, `stale` (referenced only by the pending-removal
config) is scheduled for removal while `live` is retained. -/
theorem remove_instances_characterization_witness :
    "stale" ∈ rC3.remove_instances ↔
      ("stale" ∈ registeredInstanceNames stC3 true ∧
        ∀ fc ∈ stC3.config_files, resolvedName parseDown fc.1 fc.2 ≠ "stale") :=
  remove_instances_characterization parseDown stC3 rC3 (by rfl) "stale"

theorem processConfigs_warns_mem (parse : String → ParseResult)
    (files : List (String × StoredConfig)) (a : ScanAcc)
    (h : processConfigs parse files = Except.ok a) (f : String) (c : StoredConfig)
    (hmem : (f, c) ∈ files) (hp : parse f = ParseResult.osError) :
    ("Unable to read " ++ f) ∈ a.warns := by
  induction files generalizing a with
  | nil => exact absurd hmem (List.not_mem_nil _)
  | cons fc0 rest ih =>
    obtain ⟨f0, c0⟩ := fc0
    simp only [processConfigs] at h
    cases hp0 : parse f0 with
    | invalid => rw [hp0] at h; exact absurd h (by simp)
    | osError =>
      rw [hp0] at h
      cases hrest : processConfigs parse rest with
      | error e => rw [hrest] at h; exact absurd h (by simp [Except.map])
      | ok b =>
        rw [hrest] at h
        simp only [Except.map] at h
        cases h
        show _ ∈ ("Unable to read " ++ f0) :: b.warns
        rcases List.mem_cons.mp hmem with heq | hmem2
        · rw [show f = f0 from congrArg Prod.fst heq]
          exact List.mem_cons_self _ _
        · exact List.mem_cons_of_mem _ (ih b hrest hmem2)
    | ok p =>
      rw [hp0] at h
      cases hrest : processConfigs parse rest with
      | error e => rw [hrest] at h; exact absurd h (by simp [Except.map])
      | ok b =>
        rw [hrest] at h
        simp only [Except.map] at h
        cases h
        show _ ∈ b.warns
        rcases List.mem_cons.mp hmem with heq | hmem2
        · have : f = f0 := congrArg Prod.fst heq
          rw [this] at hp
          rw [hp] at hp0
          exact absurd hp0 (by simp)
        · exact ih b hrest hmem2

/-- C4 (amended): a registered config whose re-parse raises an OS read error
(file missing or unreadable) is skipped for this cycle: its stored record is
carried into the result unchanged with nothing staged, its stored instance
name still counts as present so it is not scheduled for removal, a warning
is recorded, and every other registered config is still diffed.  (For a
structurally invalid config the claim fails: see
`invalid_config_blocks_reconcile`.) -/
theorem osError_config_skipped (parse : String → ParseResult) (st : GravityState)
    (r : DetermineResult) (h : determine_config_changes parse st = Except.ok r)
    (f : String) (c : StoredConfig) (hmem : (f, c) ∈ st.config_files)
    (hp : parse f = ParseResult.osError) :
    (f, ({ base := c } : ConfigChanges)) ∈ r.new_configs ∧
      c.instance_name ∉ r.remove_instances ∧
      ("Unable to read " ++ f) ∈ r.warnings ∧
      ∀ fc ∈ st.config_files, (fc.1, stepChanges parse fc.1 fc.2) ∈ r.new_configs := by
  cases hpc : processConfigs parse st.config_files with
  | error e =>
    rw [determine_config_changes, hpc] at h
    exact absurd h (by simp [Except.map])
  | ok a =>
    rw [determine_config_changes, hpc] at h
    simp only [Except.map, Except.ok.injEq] at h
    subst h
    obtain ⟨hnewc, hinsts⟩ := processConfigs_ok_shape parse st.config_files a hpc
    refine ⟨?_, ?_, ?_, ?_⟩
    · show _ ∈ a.new_configs
      rw [hnewc, List.mem_map]
      refine ⟨(f, c), hmem, ?_⟩
      simp [stepChanges, hp]
    · show c.instance_name ∉ List.filter _ _
      intro hmem2
      rw [List.mem_filter] at hmem2
      have h2 := hmem2.2
      simp only [decide_eq_true_eq] at h2
      apply h2
      rw [hinsts, List.mem_map]
      refine ⟨(f, c), hmem, ?_⟩
      simp [resolvedName, hp]
    · show _ ∈ a.warns
      exact processConfigs_warns_mem parse _ a hpc f c hmem hp
    · intro fc hfc
      show _ ∈ a.new_configs
      rw [hnewc]
      exact List.mem_map_of_mem _ hfc

/-- Witness for `osError_config_skipped`: `a.yml` is unreadable in `stC3`;
its record is kept, `live` is not removed, and a warning is present. -/
theorem osError_config_skipped_witness :
    ("a.yml", ({ base := cfgLive } : ConfigChanges)) ∈ rC3.new_configs ∧
      cfgLive.instance_name ∉ rC3.remove_instances ∧
      ("Unable to read " ++ "a.yml") ∈ rC3.warnings ∧
      ∀ fc ∈ stC3.config_files,
        (fc.1, stepChanges parseDown fc.1 fc.2) ∈ rC3.new_configs :=
  osError_config_skipped parseDown stC3 rC3 (by rfl) "a.yml" cfgLive (by decide) (by decide)

/-- Counterexample to C4 as stated: a structurally invalid config (one whose
`get_config` returns `None` or raises a non-OS error) is not skipped — the
uncaught exception aborts `determine_config_changes` entirely, so the other
registered config of `stTwo` is never diffed. -/
theorem invalid_config_blocks_reconcile :
    determine_config_changes parseBadMix stTwo = Except.error () ∧
      stTwo.config_files.length = 2 :=
  ⟨rfl, rfl⟩

/-- C5 (amended): `update_instance_name` is staged exactly when the fresh
parse carries an explicit instance name different from the stored one; when
no explicit name is given the stored name is retained, nothing is staged,
and the instance is not marked changed on account of its name.  But whenever
an explicit name is present — even one equal to the stored name — the
instance is added to `changed_instances`. -/
theorem instance_name_staging (p : ParsedConfig) (stored : StoredConfig) :
    (∀ n, (diffConfig p stored).changes.update_instance_name = some n ↔
      (p.instance_name = some n ∧ n ≠ stored.instance_name)) ∧
    (∀ n, p.instance_name = some n → n ∈ (diffConfig p stored).changed) ∧
    (p.instance_name = none →
      (diffConfig p stored).inst = stored.instance_name ∧
      (diffConfig p stored).changes.update_instance_name = none ∧
      (p.attribs = stored.attribs →
        update_services_of p.services stored.services = [] →
        remove_services_of p.services stored.services = [] →
        (diffConfig p stored).changed = [])) := by
  refine ⟨?_, ?_, ?_⟩
  · intro n
    rcases hn : p.instance_name with _ | m
    · have heq : (diffConfig p stored).changes.update_instance_name = none := by
        simp [diffConfig, hn]
      rw [heq]
      simp
    · have heq : (diffConfig p stored).changes.update_instance_name =
          if m ≠ stored.instance_name then some m else none := by
        simp [diffConfig, hn]
      rw [heq]
      by_cases hne : m ≠ stored.instance_name
      · rw [if_pos hne]
        constructor
        · intro hsome
          injection hsome with hsome
          subst hsome
          exact ⟨rfl, hne⟩
        · rintro ⟨h1, -⟩
          exact h1
      · rw [if_neg hne]
        rw [not_not] at hne
        constructor
        · intro hsome
          exact absurd hsome (by simp)
        · rintro ⟨h1, h2⟩
          injection h1 with h1
          exact absurd (h1 ▸ hne) h2
  · intro n hn
    have hch0 : n ∈ ([n] : List String) := List.mem_singleton.mpr rfl
    simp only [diffConfig, hn]
    split <;> split <;> split <;> simp
  · intro hn
    refine ⟨by simp [diffConfig, hn], by simp [diffConfig, hn], ?_⟩
    intro ha hu hr
    have ha2 : ¬ p.attribs ≠ stored.attribs := by rw [not_not]; exact ha
    simp [diffConfig, hn, ha2, hu, hr]

/-- Witness for `instance_name_staging` at the unchanged config `pMain` /
`cfgMain`: no rename is staged, yet `main` is marked changed. -/
theorem instance_name_staging_witness :
    ((diffConfig pMain cfgMain).changes.update_instance_name = some "main" ↔
      (pMain.instance_name = some "main" ∧ "main" ≠ cfgMain.instance_name)) ∧
    "main" ∈ (diffConfig pMain cfgMain).changed :=
  ⟨(instance_name_staging pMain cfgMain).1 "main",
    (instance_name_staging pMain cfgMain).2.1 "main" (by decide)⟩

/-- Counterexample to C5 as stated: the fresh parse `pMain` sets the explicit
instance name `main`, identical to the stored one, and nothing else differs —
yet `changed_instances` receives `main` even though no `update_instance_name`
(or any other change) is staged. -/
theorem changed_set_despite_no_change :
    (diffConfig pMain cfgMain).changes.update_instance_name = none ∧
      (diffConfig pMain cfgMain).changes.update_attribs = none ∧
      (diffConfig pMain cfgMain).changes.update_services = [] ∧
      (diffConfig pMain cfgMain).changes.remove_services = [] ∧
      (diffConfig pMain cfgMain).changed = ["main"] := by
  decide

/-- C6: `ProcessManagerRouter.update` invokes `update` on every loaded
backend, with the caller's instance names and force flag, independently of
the registered instances and of which backend each instance's
`process_manager` field assigns it to; each backend is called exactly
once. -/
theorem router_update_all_backends (pms : List String) (entries : List InstEntry)
    (names : Option (List String)) (force : Bool) :
    (∀ pm ∈ pms, (pm, names, force) ∈ router_update pms entries names force) ∧
      (∀ entries2, router_update pms entries2 names force =
        router_update pms entries names force) ∧
      (router_update pms entries names force).length = pms.length := by
  refine ⟨?_, fun _ => rfl, by simp [router_update]⟩
  intro pm hpm
  exact List.mem_map_of_mem _ hpm

/-- Witness for `router_update_all_backends`: with two loaded backends and
the only instance assigned to `systemd`, the `supervisor` backend is still
offered the update. -/
theorem router_update_all_backends_witness :
    ("supervisor", some ["main"], false) ∈
      router_update ["systemd", "supervisor"] entriesOne (some ["main"]) false :=
  (router_update_all_backends ["systemd", "supervisor"] entriesOne
    (some ["main"]) false).1 "supervisor" (by decide)

theorem lookupFS_map_set (fs : FS) (p c : String)
    (hany : (fs.any fun e => decide (e.1 = p)) = true) :
    lookupFS (fs.map fun e => if e.1 = p then (p, c) else e) p = some c := by
  induction fs with
  | nil => simp at hany
  | cons e rest ih =>
    rw [List.any_cons] at hany
    rw [List.map_cons]
    by_cases he : e.1 = p
    · rw [if_pos he]
      simp [lookupFS]
    · rw [if_neg he]
      have hrest : (rest.any fun e => decide (e.1 = p)) = true := by
        simpa [he] using hany
      rw [lookupFS, List.find?_cons_of_neg _ (by simpa using he)]
      simpa only [lookupFS] using ih hrest

theorem lookupFS_append_set (fs : FS) (p c : String)
    (hnone : (fs.any fun e => decide (e.1 = p)) = false) :
    lookupFS (fs ++ [(p, c)]) p = some c := by
  induction fs with
  | nil => simp [lookupFS]
  | cons e rest ih =>
    rw [List.any_cons] at hnone
    obtain ⟨he, hrest⟩ := Bool.or_eq_false_iff.mp hnone
    rw [List.cons_append, lookupFS, List.find?_cons_of_neg _ (by simpa using he)]
    simpa only [lookupFS] using ih hrest

theorem lookupFS_setFS (fs : FS) (p c : String) :
    lookupFS (setFS fs p c) p = some c := by
  rw [setFS]
  by_cases hany : (fs.any fun e => decide (e.1 = p)) = true
  · rw [if_pos hany]
    exact lookupFS_map_set fs p c hany
  · rw [if_neg hany]
    exact lookupFS_append_set fs p c (Bool.eq_false_iff.mpr hany)

theorem groupAppend_self_mem (acc : List (String × List String)) (pm2 n2 : String) :
    ∃ g, (pm2, g) ∈ groupAppend acc pm2 n2 ∧ n2 ∈ g := by
  rw [groupAppend]
  by_cases hany : (acc.any fun g => decide (g.1 = pm2)) = true
  · rw [if_pos hany]
    obtain ⟨g0, hg0, hpm⟩ := List.any_eq_true.mp hany
    simp only [decide_eq_true_eq] at hpm
    refine ⟨g0.2 ++ [n2], ?_, by simp⟩
    have hfn : (fun g => if g.1 = pm2 then (g.1, g.2 ++ [n2]) else g) g0
        = (pm2, g0.2 ++ [n2]) := by
      simp [hpm]
    exact hfn ▸ List.mem_map_of_mem _ hg0
  · rw [if_neg hany]
    exact ⟨[n2], List.mem_append_right _ (by simp), by simp⟩

theorem groupAppend_mono (acc : List (String × List String)) (pm : String)
    (g : List String) (n pm2 n2 : String) (hg : (pm, g) ∈ acc) (hn : n ∈ g) :
    ∃ g2, (pm, g2) ∈ groupAppend acc pm2 n2 ∧ n ∈ g2 := by
  rw [groupAppend]
  by_cases hany : (acc.any fun g => decide (g.1 = pm2)) = true
  · rw [if_pos hany]
    by_cases hpm : pm = pm2
    · refine ⟨g ++ [n2], ?_, List.mem_append_left _ hn⟩
      have hfn : (fun g0 => if g0.1 = pm2 then (g0.1, g0.2 ++ [n2]) else g0) (pm, g)
          = (pm, g ++ [n2]) := by
        simp [hpm]
      exact hfn ▸ List.mem_map_of_mem _ hg
    · refine ⟨g, ?_, hn⟩
      have hfn : (fun g0 => if g0.1 = pm2 then (g0.1, g0.2 ++ [n2]) else g0) (pm, g)
          = (pm, g) := by
        simp [hpm]
      exact hfn ▸ List.mem_map_of_mem _ hg
  · rw [if_neg hany]
    exact ⟨g, List.mem_append_left _ hg, hn⟩

theorem groupAppend_mem_inv (acc : List (String × List String)) (pm2 n2 pm : String)
    (g : List String) (hg : (pm, g) ∈ groupAppend acc pm2 n2) (n : String) (hn : n ∈ g) :
    (∃ g0, (pm, g0) ∈ acc ∧ n ∈ g0) ∨ (n = n2 ∧ pm = pm2) := by
  rw [groupAppend] at hg
  by_cases hany : (acc.any fun g => decide (g.1 = pm2)) = true
  · rw [if_pos hany] at hg
    obtain ⟨g0, hg0, heq⟩ := List.mem_map.mp hg
    by_cases hpm0 : g0.1 = pm2
    · rw [if_pos hpm0] at heq
      rw [Prod.mk.injEq] at heq
      obtain ⟨h1, h2⟩ := heq
      rcases List.mem_append.mp (h2 ▸ hn) with hmem | hmem
      · refine Or.inl ⟨g0.2, ?_, hmem⟩
        rw [show ((pm, g0.2) : String × List String) = g0 from by rw [← h1]]
        exact hg0
      · refine Or.inr ⟨List.mem_singleton.mp hmem, ?_⟩
        rw [← h1]
        exact hpm0
    · rw [if_neg hpm0] at heq
      exact Or.inl ⟨g, heq ▸ hg0, hn⟩
  · rw [if_neg hany] at hg
    rcases List.mem_append.mp hg with hmem | hmem
    · exact Or.inl ⟨g, hmem, hn⟩
    · have hs := List.mem_singleton.mp hmem
      rw [Prod.mk.injEq] at hs
      obtain ⟨h1, h2⟩ := hs
      exact Or.inr ⟨List.mem_singleton.mp (h2 ▸ hn), h1⟩

theorem group_names_mono (entries : List InstEntry) (names0 : List String) :
    ∀ (acc groups : List (String × List String)),
      group_names entries acc names0 = Except.ok groups →
      ∀ (pm : String) (g : List String) (n : String), (pm, g) ∈ acc → n ∈ g →
      ∃ g2, (pm, g2) ∈ groups ∧ n ∈ g2 := by
  induction names0 with
  | nil =>
    intro acc groups h pm g n hg hn
    rw [group_names] at h
    cases h
    exact ⟨g, hg, hn⟩
  | cons n0 rest ih =>
    intro acc groups h pm g n hg hn
    rw [group_names] at h
    cases hfind : get_instance_config entries n0 with
    | none => rw [hfind] at h; exact absurd h (by simp)
    | some e =>
      rw [hfind] at h
      obtain ⟨g2, hg2, hn2⟩ := groupAppend_mono acc pm g n e.process_manager n0 hg hn
      exact ih _ groups h pm g2 n hg2 hn2

theorem group_names_covers (entries : List InstEntry) (names0 : List String)
    (acc groups : List (String × List String))
    (h : group_names entries acc names0 = Except.ok groups) :
    ∀ n ∈ names0, ∃ e, get_instance_config entries n = some e ∧
      ∃ g, (e.process_manager, g) ∈ groups ∧ n ∈ g := by
  induction names0 generalizing acc with
  | nil => intro n hn; exact absurd hn (List.not_mem_nil n)
  | cons n0 rest ih =>
    intro n hn
    rw [group_names] at h
    cases hfind : get_instance_config entries n0 with
    | none => rw [hfind] at h; exact absurd h (by simp)
    | some e =>
      rw [hfind] at h
      rcases List.mem_cons.mp hn with rfl | hn2
      · refine ⟨e, hfind, ?_⟩
        obtain ⟨g0, hg0, hn0⟩ := groupAppend_self_mem acc e.process_manager n
        exact group_names_mono entries rest _ groups h e.process_manager g0 n hg0 hn0
      · exact ih _ h n hn2

theorem group_names_sound (entries : List InstEntry) (names0 : List String)
    (acc groups : List (String × List String))
    (h : group_names entries acc names0 = Except.ok groups) :
    ∀ pm g, (pm, g) ∈ groups → ∀ n ∈ g,
      (∃ g0, (pm, g0) ∈ acc ∧ n ∈ g0) ∨
        (n ∈ names0 ∧ ∃ e, get_instance_config entries n = some e ∧
          e.process_manager = pm) := by
  induction names0 generalizing acc with
  | nil =>
    rw [group_names] at h
    cases h
    intro pm g hg n hn
    exact Or.inl ⟨g, hg, hn⟩
  | cons n0 rest ih =>
    intro pm g hg n hn
    rw [group_names] at h
    cases hfind : get_instance_config entries n0 with
    | none => rw [hfind] at h; exact absurd h (by simp)
    | some e =>
      rw [hfind] at h
      rcases ih _ h pm g hg n hn with hacc | hrest
      · obtain ⟨g0, hg0, hn0⟩ := hacc
        rcases groupAppend_mem_inv acc e.process_manager n0 pm g0 hg0 n hn0 with
          horig | ⟨rfl, rfl⟩
        · exact Or.inl horig
        · exact Or.inr ⟨List.mem_cons_self _ _, e, hfind, rfl⟩
      · exact Or.inr ⟨List.mem_cons_of_mem _ hrest.1, hrest.2⟩

theorem call_backends_eq (pms : List String) (method : String)
    (groups : List (String × List String)) (acc calls : List (String × String × List String))
    (h : call_backends pms method acc groups = Except.ok calls) :
    calls = acc ++ groups.map fun g => (g.1, method, g.2) := by
  induction groups generalizing acc with
  | nil =>
    rw [call_backends] at h
    cases h
    simp
  | cons g rest ih =>
    rw [call_backends] at h
    by_cases hmem : g.1 ∈ pms
    · rw [if_pos hmem] at h
      rw [ih _ h]
      simp
    · rw [if_neg hmem] at h
      exact absurd h (by simp)

/-- C7 (amended): for a lifecycle operation called with an explicit nonempty
list of instance names, `get_instance_names` separates the unknown names and
returns them to its internal caller, but the routing layer
(`__route_method`) discards them without reporting anything to the caller
(`reported` is always empty, and no backend call contains an unknown name);
the operation still proceeds for each resolved name, grouped under its
instance's `process_manager` backend. -/
theorem route_method_unknown_names (pms : List String) (entries : List InstEntry)
    (method : String) (l : List String) (hl : l ≠ [])
    (res : RouteResult) (h : route_method pms entries method (some l) = Except.ok res) :
    res.reported = [] ∧
    get_instance_names (registeredNamesOf entries) (some l) =
      Except.ok (l.filter (fun n => decide (n ∈ registeredNamesOf entries)),
        l.filter (fun n => decide (n ∉ registeredNamesOf entries)),
        registeredNamesOf entries) ∧
    (∀ pm m group, (pm, m, group) ∈ res.calls → m = method ∧
      ∀ n ∈ group, n ∈ l ∧ n ∈ registeredNamesOf entries ∧
        ∃ e, get_instance_config entries n = some e ∧ e.process_manager = pm) ∧
    (∀ n ∈ l, n ∈ registeredNamesOf entries →
      ∃ e group, get_instance_config entries n = some e ∧
        (e.process_manager, method, group) ∈ res.calls ∧ n ∈ group) := by
  have hgi : get_instance_names (registeredNamesOf entries) (some l) =
      Except.ok (l.filter (fun n => decide (n ∈ registeredNamesOf entries)),
        l.filter (fun n => decide (n ∉ registeredNamesOf entries)),
        registeredNamesOf entries) := by
    rw [get_instance_names]
    simp only [Option.getD_some]
    rw [if_pos hl]
  have hgrp : group_instance_names_by_pm entries (some l) =
      group_names entries [] (l.filter fun n => decide (n ∈ registeredNamesOf entries)) := by
    rw [group_instance_names_by_pm, hgi]
  cases hgn : group_names entries []
      (l.filter fun n => decide (n ∈ registeredNamesOf entries)) with
  | error e =>
    have hre : route_method pms entries method (some l) = Except.error e := by
      rw [route_method, hgrp, hgn]
    rw [hre] at h
    exact absurd h (by simp)
  | ok groups =>
    have hre : route_method pms entries method (some l) =
        (call_backends pms method [] groups).map fun calls =>
          { calls := calls, reported := [] } := by
      rw [route_method, hgrp, hgn]
    rw [hre] at h
    cases hcb : call_backends pms method [] groups with
    | error e => rw [hcb] at h; exact absurd h (by simp [Except.map])
    | ok calls =>
      rw [hcb] at h
      simp only [Except.map, Except.ok.injEq] at h
      subst h
      have hcalls : calls = groups.map fun g => (g.1, method, g.2) := by
        simpa using call_backends_eq pms method groups [] calls hcb
      refine ⟨rfl, hgi, ?_, ?_⟩
      · intro pm m group hmem
        show _ ∧ _
        rw [show ({ calls := calls, reported := [] } : RouteResult).calls = calls from rfl,
          hcalls] at hmem
        obtain ⟨g, hg, heq⟩ := List.mem_map.mp hmem
        rw [Prod.mk.injEq, Prod.mk.injEq] at heq
        obtain ⟨h1, h2, h3⟩ := heq
        refine ⟨h2.symm, fun n hn => ?_⟩
        have hg2 : (pm, group) ∈ groups := by
          rw [show ((pm, group) : String × List String) = g from by rw [← h1, ← h3]]
          exact hg
        rcases group_names_sound entries _ [] groups hgn pm group hg2 n hn with
          habs | ⟨hres, e, hfind, hpm⟩
        · obtain ⟨g0, hg0, -⟩ := habs
          exact absurd hg0 (List.not_mem_nil _)
        · rw [List.mem_filter] at hres
          exact ⟨hres.1, by simpa using hres.2, e, hfind, hpm⟩
      · intro n hn hreg
        have hres : n ∈ l.filter fun n => decide (n ∈ registeredNamesOf entries) := by
          rw [List.mem_filter]
          exact ⟨hn, by simpa using hreg⟩
        obtain ⟨e, hfind, g, hg, hng⟩ :=
          group_names_covers entries _ [] groups hgn n hres
        refine ⟨e, g, hfind, ?_, hng⟩
        rw [show ({ calls := calls, reported := [] } : RouteResult).calls = calls from rfl,
          hcalls]
        exact List.mem_map_of_mem _ hg

/-- Witness for `route_method_unknown_names`: requesting `stop` for `main`
(registered, systemd) and `bogus` (unknown). -/
theorem route_method_unknown_names_witness :
    ({ calls := [("systemd", "stop", ["main"])], reported := [] } : RouteResult).reported
        = [] ∧
    get_instance_names (registeredNamesOf entriesOne) (some ["main", "bogus"]) =
      Except.ok (["main", "bogus"].filter
          (fun n => decide (n ∈ registeredNamesOf entriesOne)),
        ["main", "bogus"].filter (fun n => decide (n ∉ registeredNamesOf entriesOne)),
        registeredNamesOf entriesOne) ∧
    (∀ pm m group, (pm, m, group) ∈
        ({ calls := [("systemd", "stop", ["main"])], reported := [] } : RouteResult).calls →
      m = "stop" ∧ ∀ n ∈ group, n ∈ ["main", "bogus"] ∧
        n ∈ registeredNamesOf entriesOne ∧
        ∃ e, get_instance_config entriesOne n = some e ∧ e.process_manager = pm) ∧
    (∀ n ∈ ["main", "bogus"], n ∈ registeredNamesOf entriesOne →
      ∃ e group, get_instance_config entriesOne n = some e ∧
        (e.process_manager, "stop", group) ∈
          ({ calls := [("systemd", "stop", ["main"])], reported := [] } : RouteResult).calls ∧
        n ∈ group) :=
  route_method_unknown_names ["systemd"] entriesOne "stop" ["main", "bogus"]
    (by decide) _ (by rfl)

/-- Counterexample to C7 as stated: the unknown requested name `bogus` is
separated out by `get_instance_names`, but the routed `stop` completes with
an empty `reported` list and no call mentioning `bogus` — the unknown name
is silently dropped, not reported to the caller. -/
theorem unknown_name_silently_dropped :
    route_method ["systemd"] entriesOne "stop" (some ["main", "bogus"]) =
      Except.ok { calls := [("systemd", "stop", ["main"])], reported := [] } ∧
    "bogus" ∈ ["main", "bogus"].filter
      (fun n => decide (n ∉ registeredNamesOf entriesOne)) :=
  ⟨rfl, by decide⟩

/-- C8: `_update_file` leaves the file system untouched and reports no write
when the file already holds exactly the rendered contents; it writes (and
afterwards the file holds the contents) exactly when the file is absent or
differs. -/
theorem update_file_noop_iff (fs : FS) (path contents : String) :
    (lookupFS fs path = some contents →
      update_file fs path contents = (fs, false)) ∧
    (lookupFS fs path ≠ some contents →
      (update_file fs path contents).2 = true ∧
        lookupFS (update_file fs path contents).1 path = some contents) := by
  constructor
  · intro h
    have hneed : file_needs_update fs path contents = false := by
      rw [file_needs_update, h]
      simp
    simp [update_file, h, hneed]
  · intro h
    cases hl : lookupFS fs path with
    | none =>
      have hw : update_file fs path contents = (setFS fs path contents, true) := by
        simp [update_file, hl]
      rw [hw]
      exact ⟨rfl, lookupFS_setFS fs path contents⟩
    | some c0 =>
      have hne : c0 ≠ contents := fun heq => h (by rw [hl, heq])
      have hw : update_file fs path contents = (setFS fs path contents, true) := by
        simp [update_file, hl, file_needs_update, hne]
      rw [hw]
      exact ⟨rfl, lookupFS_setFS fs path contents⟩

/-- Witness for `update_file_noop_iff`: rewriting a unit file with its
existing contents is a no-op. -/
theorem update_file_noop_witness :
    update_file [("galaxy-gunicorn.service", "unit")] "galaxy-gunicorn.service" "unit" =
      ([("galaxy-gunicorn.service", "unit")], false) :=
  (update_file_noop_iff [("galaxy-gunicorn.service", "unit")]
    "galaxy-gunicorn.service" "unit").1 (by decide)

theorem mem_keys_of_lookupFS (fs : FS) (q c0 : String) (h : lookupFS fs q = some c0) :
    q ∈ fs.map Prod.fst := by
  rw [lookupFS] at h
  cases hf : fs.find? fun e => e.1 = q with
  | none => rw [hf] at h; exact absurd h (by simp)
  | some e =>
    have hmem := List.mem_of_find?_eq_some hf
    have hkey := List.find?_some hf
    simp only [decide_eq_true_eq] at hkey
    exact hkey ▸ List.mem_map_of_mem Prod.fst hmem

theorem mem_keys_setFS (fs : FS) (p c q : String) :
    q ∈ (setFS fs p c).map Prod.fst ↔ q ∈ fs.map Prod.fst ∨ q = p := by
  rw [setFS]
  by_cases hany : (fs.any fun e => decide (e.1 = p)) = true
  · rw [if_pos hany]
    have hmap : (fs.map fun e => if e.1 = p then (p, c) else e).map Prod.fst
        = fs.map Prod.fst := by
      rw [List.map_map]
      apply List.map_congr_left
      intro e _
      by_cases he : e.1 = p
      · simp [he]
      · simp [he]
    rw [hmap]
    constructor
    · exact Or.inl
    · rintro (h | rfl)
      · exact h
      · obtain ⟨e, he, hep⟩ := List.any_eq_true.mp hany
        simp only [decide_eq_true_eq] at hep
        exact hep ▸ List.mem_map_of_mem Prod.fst he
  · rw [if_neg hany]
    rw [List.map_append]
    simp [List.mem_append]

theorem mem_keys_update_file (fs : FS) (p c q : String) :
    q ∈ ((update_file fs p c).1).map Prod.fst ↔ q ∈ fs.map Prod.fst ∨ q = p := by
  cases hl : lookupFS fs p with
  | none =>
    have hw : update_file fs p c = (setFS fs p c, true) := by
      simp [update_file, hl]
    rw [hw]
    exact mem_keys_setFS fs p c q
  | some c0 =>
    by_cases hne : c0 ≠ c
    · have hw : update_file fs p c = (setFS fs p c, true) := by
        simp [update_file, hl, file_needs_update, hne]
      rw [hw]
      exact mem_keys_setFS fs p c q
    · rw [not_not] at hne
      have hw : update_file fs p c = (fs, false) := by
        simp [update_file, hl, file_needs_update, hne]
      rw [hw]
      constructor
      · exact Or.inl
      · rintro (h | rfl)
        · exact h
        · exact mem_keys_of_lookupFS fs _ c0 hl

theorem write_units_snd (render : String → SysConfig → SysService → String)
    (config_file : String) (c : SysConfig) :
    ∀ (svcs : List SysService) (acc : FS × List String),
      (write_units render config_file c acc svcs).2 =
        acc.2 ++ svcs.map (unit_name c.instance_name) := by
  intro svcs
  induction svcs with
  | nil => intro acc; simp [write_units]
  | cons s rest ih =>
    intro acc
    rw [write_units, ih]
    simp

theorem write_units_keys (render : String → SysConfig → SysService → String)
    (config_file : String) (c : SysConfig) :
    ∀ (svcs : List SysService) (acc : FS × List String) (q : String),
      q ∈ (write_units render config_file c acc svcs).1.map Prod.fst ↔
        q ∈ acc.1.map Prod.fst ∨ q ∈ svcs.map (unit_name c.instance_name) := by
  intro svcs
  induction svcs with
  | nil => intro acc q; simp [write_units]
  | cons s rest ih =>
    intro acc q
    rw [write_units, ih]
    rw [show ((update_file acc.1 (unit_name c.instance_name s)
          (render config_file c s)).1,
        acc.2 ++ [unit_name c.instance_name s]).1 =
      (update_file acc.1 (unit_name c.instance_name s) (render config_file c s)).1 from rfl]
    rw [mem_keys_update_file]
    simp only [List.map_cons, List.mem_cons]
    tauto

theorem remove_units_keys :
    ∀ (orphans : List String) (fs : FS) (q : String),
      q ∈ (remove_units fs orphans).map Prod.fst ↔
        q ∈ fs.map Prod.fst ∧ q ∉ orphans := by
  intro orphans
  induction orphans with
  | nil => intro fs q; simp [remove_units]
  | cons f rest ih =>
    intro fs q
    rw [remove_units, ih]
    have hflt : q ∈ (fs.filter fun e => decide (e.1 ≠ f)).map Prod.fst ↔
        q ∈ fs.map Prod.fst ∧ q ≠ f := by
      simp only [List.mem_map, List.mem_filter, decide_eq_true_eq]
      constructor
      · rintro ⟨e, ⟨he, hne⟩, rfl⟩
        exact ⟨⟨e, he, rfl⟩, hne⟩
      · rintro ⟨⟨e, he, rfl⟩, hne⟩
        exact ⟨e, ⟨he, hne⟩, rfl⟩
    rw [hflt]
    simp only [List.mem_cons]
    tauto

theorem process_config_fst (render : String → SysConfig → SysService → String)
    (fs : FS) (config_file : String) (c : SysConfig) :
    (process_config render fs config_file c).1 =
      remove_units (write_units render config_file c (fs, []) c.services).1
        ((((write_units render config_file c (fs, []) c.services).1.map Prod.fst).filter
            fun f => starts_with_galaxy f).filter
          fun f => decide (f ∉ (write_units render config_file c (fs, []) c.services).2)) :=
  rfl

theorem process_config_snd (render : String → SysConfig → SysService → String)
    (fs : FS) (config_file : String) (c : SysConfig) :
    (process_config render fs config_file c).2 =
      ((((write_units render config_file c (fs, []) c.services).1.map Prod.fst).filter
          fun f => starts_with_galaxy f).filter
        fun f => decide (f ∉ (write_units render config_file c (fs, []) c.services).2)).flatMap
        fun f => [SysEvent.stopped (unit_root f), SysEvent.removed f] :=
  rfl

theorem process_config_keys (render : String → SysConfig → SysService → String)
    (fs : FS) (config_file : String) (c : SysConfig)
    (hgal : ∀ s ∈ c.services, starts_with_galaxy (unit_name c.instance_name s) = true)
    (q : String) :
    (q ∈ (process_config render fs config_file c).1.map Prod.fst ∧
      starts_with_galaxy q = true) ↔ q ∈ intended_units c := by
  rw [process_config_fst, remove_units_keys]
  constructor
  · rintro ⟨⟨hk, hno⟩, hpref⟩
    by_contra hni
    apply hno
    rw [List.mem_filter]
    refine ⟨?_, ?_⟩
    · rw [List.mem_filter]
      exact ⟨hk, hpref⟩
    · simp only [decide_eq_true_eq]
      rw [write_units_snd]
      simpa [intended_units] using hni
  · intro hq
    have hpref : starts_with_galaxy q = true := by
      obtain ⟨s, hs, rfl⟩ := List.mem_map.mp hq
      exact hgal s hs
    refine ⟨⟨?_, ?_⟩, hpref⟩
    · rw [write_units_keys]
      right
      simpa [intended_units] using hq
    · intro hq2
      rw [List.mem_filter] at hq2
      have h2 := hq2.2
      simp only [decide_eq_true_eq] at h2
      apply h2
      rw [write_units_snd]
      simpa [intended_units] using hq

theorem flatMap_pair_infix (l : List String) (g : String → List SysEvent) (f : String)
    (hf : f ∈ l) : ∃ l1 l2, l.flatMap g = l1 ++ g f ++ l2 := by
  obtain ⟨s, t, rfl⟩ := List.append_of_mem hf
  refine ⟨s.flatMap g, t.flatMap g, ?_⟩
  rw [List.flatMap_append, List.flatMap_cons]
  simp [List.append_assoc]

theorem process_config_removes_orphans (render : String → SysConfig → SysService → String)
    (fs : FS) (config_file : String) (c : SysConfig) (f : String)
    (hpref : starts_with_galaxy f = true) (hni : f ∉ intended_units c)
    (hk : f ∈ fs.map Prod.fst) :
    f ∉ (process_config render fs config_file c).1.map Prod.fst ∧
      ∃ l1 l2, (process_config render fs config_file c).2 =
        l1 ++ [SysEvent.stopped (unit_root f), SysEvent.removed f] ++ l2 := by
  have horph : f ∈ (((write_units render config_file c (fs, []) c.services).1.map
        Prod.fst).filter fun f => starts_with_galaxy f).filter
      fun f => decide (f ∉ (write_units render config_file c (fs, []) c.services).2) := by
    rw [List.mem_filter]
    refine ⟨?_, ?_⟩
    · rw [List.mem_filter]
      refine ⟨?_, hpref⟩
      rw [write_units_keys]
      exact Or.inl hk
    · simp only [decide_eq_true_eq]
      rw [write_units_snd]
      simpa [intended_units] using hni
  constructor
  · rw [process_config_fst, remove_units_keys]
    rintro ⟨-, hno⟩
    exact hno horph
  · rw [process_config_snd]
    exact flatMap_pair_infix _ _ f horph

theorem update_configs_eq_owned (render : String → SysConfig → SysService → String)
    (self_name : String) :
    ∀ (cfgs : List (String × SysConfig)) (acc : FS × List SysEvent),
      update_configs render self_name acc cfgs =
        update_configs render self_name acc
          (cfgs.filter fun fc => decide (fc.2.process_manager = self_name)) := by
  intro cfgs
  induction cfgs with
  | nil => intro acc; rfl
  | cons fc rest ih =>
    intro acc
    by_cases hown : fc.2.process_manager = self_name
    · rw [update_configs, if_pos hown, List.filter_cons_of_pos (by simpa using hown),
        update_configs, if_pos hown]
      exact ih _
    · rw [update_configs, if_neg hown, List.filter_cons_of_neg (by simpa using hown)]
      exact ih _

theorem update_configs_append (render : String → SysConfig → SysService → String)
    (self_name : String) :
    ∀ (l1 l2 : List (String × SysConfig)) (acc : FS × List SysEvent),
      update_configs render self_name acc (l1 ++ l2) =
        update_configs render self_name (update_configs render self_name acc l1) l2 := by
  intro l1
  induction l1 with
  | nil => intro l2 acc; rfl
  | cons fc rest ih =>
    intro l2 acc
    rw [List.cons_append, update_configs, update_configs]
    by_cases hown : fc.2.process_manager = self_name
    · rw [if_pos hown, if_pos hown]
      exact ih _ _
    · rw [if_neg hown, if_neg hown]
      exact ih _ _

theorem update_selected_converges (render : String → SysConfig → SysService → String)
    (self_name : String) (fs : FS) (selected init : List (String × SysConfig))
    (cf : String) (c : SysConfig)
    (hsel : selected.filter (fun fc => decide (fc.2.process_manager = self_name)) =
      init ++ [(cf, c)])
    (hgal : ∀ s ∈ c.services, starts_with_galaxy (unit_name c.instance_name s) = true) :
    (∀ q, (q ∈ (update_configs render self_name (fs, []) selected).1.map Prod.fst ∧
        starts_with_galaxy q = true) ↔ q ∈ intended_units c) ∧
    (∀ f, starts_with_galaxy f = true → f ∉ intended_units c →
      f ∈ (update_configs render self_name (fs, []) init).1.map Prod.fst →
      f ∉ (update_configs render self_name (fs, []) selected).1.map Prod.fst ∧
        ∃ l1 l2, (update_configs render self_name (fs, []) selected).2 =
          l1 ++ [SysEvent.stopped (unit_root f), SysEvent.removed f] ++ l2) := by
  have hown : c.process_manager = self_name := by
    have hmem : (cf, c) ∈ selected.filter
        fun fc => decide (fc.2.process_manager = self_name) := by
      rw [hsel]
      exact List.mem_append_right _ (List.mem_singleton.mpr rfl)
    have h2 := (List.mem_filter.mp hmem).2
    simpa using h2
  have hmain : update_configs render self_name (fs, []) selected =
      ((process_config render (update_configs render self_name (fs, []) init).1 cf c).1,
        (update_configs render self_name (fs, []) init).2 ++
          (process_config render (update_configs render self_name (fs, []) init).1
            cf c).2) := by
    rw [update_configs_eq_owned, hsel, update_configs_append, update_configs,
      if_pos hown, update_configs]
  rw [hmain]
  refine ⟨?_, ?_⟩
  · intro q
    exact process_config_keys render _ cf c hgal q
  · intro f hpref hni hmid
    obtain ⟨hnot, l1, l2, hev⟩ :=
      process_config_removes_orphans render _ cf c f hpref hni hmid
    refine ⟨hnot, (update_configs render self_name (fs, []) init).2 ++ l1, l2, ?_⟩
    show _ ++ _ = _
    rw [hev]
    simp [List.append_assoc]

/-- C9 (amended): after the systemd backend's `update`, the `galaxy-`-prefixed
files of the unit directory are exactly the intended units of the LAST config
the backend processed (one per service); every previously present managed
file not in that intended set was stopped and then removed.  With several
owned configs each `_process_config` call removes the units of the earlier
ones, so the per-instance form of the claim fails — see
`second_config_clobbers_first`. -/
theorem systemd_update_converges (render : String → SysConfig → SysService → String)
    (self_name : String) (fs : FS) (configs : List (String × SysConfig))
    (names : Option (List String)) (init : List (String × SysConfig))
    (cf : String) (c : SysConfig)
    (hsel : owned_selected self_name configs names = init ++ [(cf, c)])
    (hgal : ∀ s ∈ c.services, starts_with_galaxy (unit_name c.instance_name s) = true) :
    (∀ q, (q ∈ (systemd_update render self_name fs configs names).1.map Prod.fst ∧
        starts_with_galaxy q = true) ↔ q ∈ intended_units c) ∧
    (∀ f, starts_with_galaxy f = true → f ∉ intended_units c →
      f ∈ (update_configs render self_name (fs, []) init).1.map Prod.fst →
      f ∉ (systemd_update render self_name fs configs names).1.map Prod.fst ∧
        ∃ l1 l2, (systemd_update render self_name fs configs names).2 =
          l1 ++ [SysEvent.stopped (unit_root f), SysEvent.removed f] ++ l2) := by
  cases names with
  | none =>
    have hsel2 : configs.filter
        (fun fc => decide (fc.2.process_manager = self_name)) = init ++ [(cf, c)] := hsel
    obtain ⟨h1, h2⟩ :=
      update_selected_converges render self_name fs configs init cf c hsel2 hgal
    have hb : systemd_update render self_name fs configs none =
        ((update_configs render self_name (fs, []) configs).1,
          (update_configs render self_name (fs, []) configs).2 ++
            [SysEvent.reloaded]) := rfl
    rw [hb]
    refine ⟨fun q => h1 q, fun f hpref hni hmid => ?_⟩
    obtain ⟨hnot, l1, l2, hev⟩ := h2 f hpref hni hmid
    refine ⟨hnot, l1, l2 ++ [SysEvent.reloaded], ?_⟩
    show _ ++ [SysEvent.reloaded] = _
    rw [hev]
    simp [List.append_assoc]
  | some l =>
    have hsel2 : (configs.filter fun fc => fc.2.instance_name ∈ l).filter
        (fun fc => decide (fc.2.process_manager = self_name)) = init ++ [(cf, c)] := hsel
    obtain ⟨h1, h2⟩ := update_selected_converges render self_name fs
      (configs.filter fun fc => fc.2.instance_name ∈ l) init cf c hsel2 hgal
    have hb : systemd_update render self_name fs configs (some l) =
        ((update_configs render self_name (fs, [])
            (configs.filter fun fc => fc.2.instance_name ∈ l)).1,
          (update_configs render self_name (fs, [])
            (configs.filter fun fc => fc.2.instance_name ∈ l)).2 ++
            [SysEvent.reloaded]) := rfl
    rw [hb]
    refine ⟨fun q => h1 q, fun f hpref hni hmid => ?_⟩
    obtain ⟨hnot, l1, l2, hev⟩ := h2 f hpref hni hmid
    refine ⟨hnot, l1, l2 ++ [SysEvent.reloaded], ?_⟩
    show _ ++ [SysEvent.reloaded] = _
    rw [hev]
    simp [List.append_assoc]

/-- Witness for `systemd_update_converges`: with two systemd-owned configs,
the directory after `update` holds exactly the LAST config's unit
(`galaxy-gunicorn.service` of instance `b`). -/
theorem systemd_update_converges_witness :
    ("galaxy-gunicorn.service" ∈ (systemd_update renderFixed "systemd" []
        [("a.yml", sysCfgA), ("b.yml", sysCfgB)] none).1.map Prod.fst ∧
      starts_with_galaxy "galaxy-gunicorn.service" = true) ↔
      "galaxy-gunicorn.service" ∈ intended_units sysCfgB :=
  (systemd_update_converges renderFixed "systemd" []
    [("a.yml", sysCfgA), ("b.yml", sysCfgB)] none [("a.yml", sysCfgA)] "b.yml" sysCfgB
    (by rfl) (by decide)).1 "galaxy-gunicorn.service"

/-- Counterexample to C9 as stated: both configs are owned by the systemd
backend, yet after `update` the unit of instance `a`
(`galaxy-handler0.service`) is gone — processing `b` removed it as an
orphan, so the directory does not hold one unit per service of every owned
instance. -/
theorem second_config_clobbers_first :
    (systemd_update renderFixed "systemd" []
        [("a.yml", sysCfgA), ("b.yml", sysCfgB)] none).1.map Prod.fst =
      ["galaxy-gunicorn.service"] ∧
    "galaxy-handler0.service" ∈ intended_units sysCfgA ∧
    sysCfgA.process_manager = "systemd" :=
  ⟨rfl, by decide, rfl⟩

theorem mem_keys_setKey (l : List (String × StoredConfig)) (k : String) (v : StoredConfig)
    (q : String) : q ∈ (setKey l k v).map Prod.fst ↔ q ∈ l.map Prod.fst ∨ q = k := by
  rw [setKey]
  by_cases hany : (l.any fun e => decide (e.1 = k)) = true
  · rw [if_pos hany]
    have hmap : (l.map fun e => if e.1 = k then (k, v) else e).map Prod.fst
        = l.map Prod.fst := by
      rw [List.map_map]
      apply List.map_congr_left
      intro e _
      by_cases he : e.1 = k
      · simp [he]
      · simp [he]
    rw [hmap]
    constructor
    · exact Or.inl
    · rintro (h | rfl)
      · exact h
      · obtain ⟨e, he, hep⟩ := List.any_eq_true.mp hany
        simp only [decide_eq_true_eq] at hep
        exact hep ▸ List.mem_map_of_mem Prod.fst he
  · rw [if_neg hany]
    rw [List.map_append]
    simp [List.mem_append]

theorem dereg_config_files_single (st : GravityState) (k : String) :
    (deregister_config_file st k).config_files =
      st.config_files.filter fun e => decide (e.1 ≠ k) := by
  cases hf : st.config_files.find? fun e => e.1 = k with
  | some e => simp [deregister_config_file, hf]
  | none =>
    simp only [deregister_config_file, hf]
    rw [eq_comm, List.filter_eq_self]
    intro e he
    simp only [decide_eq_true_eq]
    intro heq
    have hnone := List.find?_eq_none.mp hf e he
    exact hnone (by simpa using heq)

theorem dereg_remove_mono (st : GravityState) (k q : String)
    (h : q ∈ st.remove_configs.map Prod.fst) :
    q ∈ (deregister_config_file st k).remove_configs.map Prod.fst := by
  cases hf : st.config_files.find? fun e => e.1 = k with
  | none => simpa [deregister_config_file, hf] using h
  | some e =>
    simp only [deregister_config_file, hf]
    rw [mem_keys_setKey]
    exact Or.inl h

theorem dereg_fold_remove_mono (ks : List String) (st : GravityState) (q : String)
    (h : q ∈ st.remove_configs.map Prod.fst) :
    q ∈ ((ks.foldl deregister_config_file st).remove_configs.map Prod.fst) := by
  induction ks generalizing st with
  | nil => exact h
  | cons k rest ih =>
    rw [List.foldl_cons]
    exact ih _ (dereg_remove_mono st k q h)

theorem dereg_fold_config_files (ks : List String) (st : GravityState) :
    (ks.foldl deregister_config_file st).config_files =
      st.config_files.filter fun e => decide (e.1 ∉ ks) := by
  induction ks generalizing st with
  | nil => simp
  | cons k rest ih =>
    rw [List.foldl_cons, ih, dereg_config_files_single, List.filter_filter]
    apply List.filter_congr
    intro e _
    by_cases h1 : e.1 = k <;> by_cases h2 : e.1 ∈ rest <;> simp [h1, h2]

theorem dereg_fold_remove_mem (ks : List String) (st : GravityState) (k : String)
    (hk1 : k ∈ ks) (hk2 : k ∈ st.config_files.map Prod.fst) :
    k ∈ ((ks.foldl deregister_config_file st).remove_configs.map Prod.fst) := by
  induction ks generalizing st with
  | nil => exact absurd hk1 (List.not_mem_nil k)
  | cons k0 rest ih =>
    rw [List.foldl_cons]
    by_cases heq : k = k0
    · subst heq
      obtain ⟨e, he, hekey⟩ := List.mem_map.mp hk2
      have hf : ∃ e2, st.config_files.find? (fun e => e.1 = k) = some e2 := by
        have hs : (st.config_files.find? fun e => e.1 = k).isSome = true := by
          rw [List.find?_isSome]
          exact ⟨e, he, by simpa using hekey⟩
        cases hff : st.config_files.find? fun e => e.1 = k with
        | none => rw [hff] at hs; exact absurd hs (by simp)
        | some e2 => exact ⟨e2, rfl⟩
      obtain ⟨e2, hf2⟩ := hf
      apply dereg_fold_remove_mono
      simp only [deregister_config_file, hf2]
      rw [mem_keys_setKey]
      exact Or.inr rfl
    · rcases List.mem_cons.mp hk1 with h | h
      · exact absurd h heq
      · apply ih _ h
        rw [dereg_config_files_single]
        obtain ⟨e, he, hekey⟩ := List.mem_map.mp hk2
        rw [List.mem_map]
        refine ⟨e, ?_, hekey⟩
        rw [List.mem_filter]
        refine ⟨he, ?_⟩
        simp only [decide_eq_true_eq]
        rw [hekey]
        exact heq

theorem key_entry_unique (l : List (String × StoredConfig))
    (hk : (l.map Prod.fst).Nodup) (e1 e2 : String × StoredConfig)
    (h1 : e1 ∈ l) (h2 : e2 ∈ l) (heq : e1.1 = e2.1) : e1 = e2 :=
  List.inj_on_of_nodup_map hk h1 h2 heq

theorem scan_fold (st : GravityState) :
    ∀ (supplied : List String) (acc : List String × List String),
      supplied.foldl
        (fun (acc : List String × List String) cf =>
          if st.config_files.any fun e => e.1 = cf then (acc.1 ++ [cf], acc.2)
          else (acc.1, acc.2 ++ [cf ++ " is not registered"])) acc =
      (acc.1 ++ supplied.filter (fun cf => st.config_files.any fun e => e.1 = cf),
        acc.2 ++ (supplied.filter fun cf =>
          !(st.config_files.any fun e => e.1 = cf)).map
            fun cf => cf ++ " is not registered") := by
  intro supplied
  induction supplied with
  | nil => intro acc; simp
  | cons cf rest ih =>
    intro acc
    rw [List.foldl_cons]
    by_cases hreg : (st.config_files.any fun e => decide (e.1 = cf)) = true
    · rw [if_pos hreg, ih]
      simp [List.filter_cons, hreg]
    · rw [if_neg hreg, ih]
      have hfalse : (st.config_files.any fun e => decide (e.1 = cf)) = false :=
        Bool.eq_false_iff.mpr hreg
      simp [List.filter_cons, hfalse]

theorem cm_remove_inst_branch (ap : String → String) (st : GravityState)
    (args : List String) (hne : get_registered_configs_by_instances st args ≠ []) :
    cm_remove ap st args =
      (((get_registered_configs_by_instances st args).map Prod.fst).foldl
        deregister_config_file st, []) := by
  rw [cm_remove, if_pos hne]
  rfl

theorem cm_remove_path_branch (ap : String → String) (st : GravityState)
    (args : List String) (hemp : get_registered_configs_by_instances st args = []) :
    cm_remove ap st args =
      (((args.map ap).filter fun cf => st.config_files.any fun e => e.1 = cf).foldl
          deregister_config_file st,
        ((args.map ap).filter fun cf =>
          !(st.config_files.any fun e => e.1 = cf)).map
            fun cf => cf ++ " is not registered") := by
  rw [cm_remove, if_neg (by rw [hemp]; exact fun h => h rfl)]
  rw [scan_fold st (args.map ap) (([] : List String), ([] : List String))]
  simp

/-- C10: arguments to `remove` are interpreted as instance names whenever at
least one matches a registered config's instance name — then every config
whose instance name is among the arguments moves to the pending-removal
table, path arguments are ignored, and no warning is emitted; only when no
argument matches an instance name are the arguments resolved as absolute
config paths, deregistering the registered ones and warning on the rest. -/
theorem cm_remove_semantics (ap : String → String) (st : GravityState)
    (args : List String) (hk : (st.config_files.map Prod.fst).Nodup) :
    ((∃ fc ∈ st.config_files, fc.2.instance_name ∈ args) →
      (cm_remove ap st args).2 = [] ∧
      ∀ fc ∈ st.config_files,
        (fc.1 ∈ (cm_remove ap st args).1.config_files.map Prod.fst ↔
          fc.2.instance_name ∉ args) ∧
        (fc.2.instance_name ∈ args →
          fc.1 ∈ (cm_remove ap st args).1.remove_configs.map Prod.fst)) ∧
    ((∀ fc ∈ st.config_files, fc.2.instance_name ∉ args) →
      (∀ fc ∈ st.config_files,
        (fc.1 ∈ (cm_remove ap st args).1.config_files.map Prod.fst ↔
          fc.1 ∉ args.map ap)) ∧
      (∀ a ∈ args, ap a ∉ st.config_files.map Prod.fst →
        (ap a ++ " is not registered") ∈ (cm_remove ap st args).2)) := by
  constructor
  · rintro ⟨fc0, hfc0, hinst0⟩
    have hne : get_registered_configs_by_instances st args ≠ [] := by
      intro hnil
      have hall := List.filter_eq_nil_iff.mp hnil fc0 hfc0
      simp [hinst0] at hall
    rw [cm_remove_inst_branch ap st args hne]
    refine ⟨rfl, fun fc hfc => ⟨?_, ?_⟩⟩
    · rw [dereg_fold_config_files]
      constructor
      · intro hmem
        obtain ⟨e, hef, hekey⟩ := List.mem_map.mp hmem
        rw [List.mem_filter] at hef
        obtain ⟨hecf, hnotin⟩ := hef
        simp only [decide_eq_true_eq] at hnotin
        have heq : e = fc := key_entry_unique st.config_files hk e fc hecf hfc hekey
        intro hinst
        apply hnotin
        apply List.mem_map_of_mem Prod.fst
        rw [get_registered_configs_by_instances, List.mem_filter]
        refine ⟨hecf, ?_⟩
        rw [heq]
        simpa using hinst
      · intro hni
        apply List.mem_map_of_mem Prod.fst
        rw [List.mem_filter]
        refine ⟨hfc, ?_⟩
        simp only [decide_eq_true_eq]
        intro hks
        obtain ⟨e, hebi, hekey⟩ := List.mem_map.mp hks
        rw [get_registered_configs_by_instances, List.mem_filter] at hebi
        obtain ⟨hecf, hinste⟩ := hebi
        simp only [decide_eq_true_eq] at hinste
        have heq : e = fc := key_entry_unique st.config_files hk e fc hecf hfc hekey
        rw [heq] at hinste
        exact hni hinste
    · intro hinst
      apply dereg_fold_remove_mem
      · exact List.mem_map_of_mem Prod.fst (by
          rw [get_registered_configs_by_instances, List.mem_filter]
          exact ⟨hfc, by simpa using hinst⟩)
      · exact List.mem_map_of_mem Prod.fst hfc
  · intro hall
    have hemp : get_registered_configs_by_instances st args = [] := by
      rw [get_registered_configs_by_instances, List.filter_eq_nil_iff]
      intro fc hfc
      simp [hall fc hfc]
    rw [cm_remove_path_branch ap st args hemp]
    constructor
    · intro fc hfc
      rw [dereg_fold_config_files]
      constructor
      · intro hmem
        obtain ⟨e, hef, hekey⟩ := List.mem_map.mp hmem
        rw [List.mem_filter] at hef
        obtain ⟨hecf, hnotin⟩ := hef
        simp only [decide_eq_true_eq] at hnotin
        have heq : e = fc := key_entry_unique st.config_files hk e fc hecf hfc hekey
        intro hmap
        apply hnotin
        rw [List.mem_filter]
        refine ⟨by rw [heq]; exact hmap, ?_⟩
        rw [List.any_eq_true]
        exact ⟨e, hecf, by simp⟩
      · intro hni
        apply List.mem_map_of_mem Prod.fst
        rw [List.mem_filter]
        refine ⟨hfc, ?_⟩
        simp only [decide_eq_true_eq]
        intro hks
        rw [List.mem_filter] at hks
        exact hni hks.1
    · intro a ha hnr
      apply List.mem_map_of_mem
      rw [List.mem_filter]
      refine ⟨List.mem_map_of_mem ap ha, ?_⟩
      have hfalse : (st.config_files.any fun e => decide (e.1 = ap a)) = false := by
        rw [Bool.eq_false_iff]
        intro hany
        apply hnr
        obtain ⟨e, he, hep⟩ := List.any_eq_true.mp hany
        simp only [decide_eq_true_eq] at hep
        exact hep ▸ List.mem_map_of_mem Prod.fst he
      simp [hfalse]

/-- Witness for `cm_remove_semantics`: removing by the instance name `live`
from `stRem` warns about nothing and moves `x.yml` to the pending-removal
table. -/
theorem cm_remove_semantics_witness :
    (cm_remove (fun s => s) stRem ["live"]).2 = [] ∧
      "x.yml" ∈ (cm_remove (fun s => s) stRem ["live"]).1.remove_configs.map Prod.fst :=
  ⟨((cm_remove_semantics (fun s => s) stRem ["live"] (by decide)).1
      ⟨("x.yml", cfgLive), by decide, by decide⟩).1,
    (((cm_remove_semantics (fun s => s) stRem ["live"] (by decide)).1
      ⟨("x.yml", cfgLive), by decide, by decide⟩).2 ("x.yml", cfgLive)
        (by decide)).2 (by decide)⟩

end Gravity
